import Mathlib

/-!
# Verification of the LitRPG Logic Copilot ledger core

A shallow embedding of the event-sourcing ledger engine
(`src/logic/ledger_engine.py` and its collaborators `temporal_state.py`,
`formula_engine.py`, `rule_engine.py`, `unit_registry.py`,
`world_schema.py`) together with proofs about the behaviours described in
the specification.

Modelling conventions (used consistently below):

* Python `Decimal` values are modelled by `ℚ` (exact rational arithmetic;
  the source sets a 50-digit context and all values appearing in the
  verified properties are exactly representable).
* Python `dict`s are modelled by association lists `List (String × α)`
  that preserve insertion order, as Python dicts do; updating an existing
  key keeps its position, a fresh key is appended (`AList.set`).
* Numeric *strings* flowing through the engine are modelled by their
  observable content (`NumStr`): the distinguished indeterminate sentinels
  `None`, `""`, `"TBD"`/`"tbd"`, and otherwise the number extracted by the
  `_clean_number` regex (a non-numeric string cleans to `0` and is
  represented as `NumStr.num 0`).
* `difflib.SequenceMatcher.ratio` (a Python standard-library routine used
  only for fuzzy item-name matching) is modelled coarsely by `similarity`,
  which recognises case-insensitive equality.  No theorem below depends on
  the fuzzy scores of genuinely different strings.
* ISO-8601 timestamps are modelled as rational time points; a malformed
  timestamp is `none` (the source keeps the buff in that case, and so does
  the model).
-/

set_option autoImplicit false

namespace LitRPG

/-! ## Association lists standing for Python dicts -/

/-- First value bound to `k`, like `d.get(k)`. -/
def AList.get {α : Type} (l : List (String × α)) (k : String) : Option α :=
  (l.find? (fun p => p.1 = k)).map (fun p => p.2)

/-- `d[k] = v`: update in place if the key exists, else append (Python
dict insertion-order semantics). -/
def AList.set {α : Type} (l : List (String × α)) (k : String) (v : α) :
    List (String × α) :=
  if (l.find? (fun p => p.1 = k)).isSome then
    l.map (fun p => if p.1 = k then (k, v) else p)
  else l ++ [(k, v)]

/-- Delete a key, like `del d[k]`. -/
def AList.erase {α : Type} (l : List (String × α)) (k : String) :
    List (String × α) :=
  l.filter (fun p => ¬ p.1 = k)

/-! ## Numeric strings and `_clean_number` -/

/-- Observable content of a value field that the source stores as a raw
string/number.  `none`/`empty`/`tbd` are the indeterminate sentinels
checked by `value_raw in [None, "", "TBD", "tbd"]`; every other input is
represented by the number the `_clean_number` regex extracts from it
(non-numeric text extracts to `0`). -/
inductive NumStr where
  | none
  | empty
  | tbd
  | num (q : ℚ)
deriving DecidableEq, Repr

/-- `LedgerEngine._clean_number`: extract the numeric content, `"0"` when
there is none.  The sentinels have no numeric token, hence clean to 0. -/
def clean_number : NumStr → ℚ
  | .num q => q
  | _ => 0

/-- Python truthiness test used for the indeterminate sentinels. -/
def NumStr.isIndeterminate : NumStr → Bool
  | .none => true
  | .empty => true
  | .tbd => true
  | .num _ => false

/-! ## Buff ids: `f"buff_{n:03d}"` -/

/-- Decimal digit character. -/
def digitChar (d : ℕ) : Char :=
  match d with
  | 0 => '0' | 1 => '1' | 2 => '2' | 3 => '3' | 4 => '4'
  | 5 => '5' | 6 => '6' | 7 => '7' | 8 => '8' | _ => '9'

/-- Decimal digits of `n` (most significant first), fuel-driven so that the
kernel can evaluate it.  `fuel ≥ n + 1` always suffices. -/
def digitsGo : ℕ → ℕ → List Char → List Char
  | 0, _, acc => acc
  | fuel + 1, n, acc =>
    if n < 10 then digitChar n :: acc
    else digitsGo fuel (n / 10) (digitChar (n % 10) :: acc)

/-- Decimal representation of a natural number. -/
def natDigits (n : ℕ) : List Char := digitsGo (n + 1) n []

/-- `f"{n:03d}"`: zero-pad to width 3. -/
def pad3 (n : ℕ) : List Char :=
  (if n < 10 then ['0', '0'] else if n < 100 then ['0'] else []) ++ natDigits n

/-- `f"buff_{n:03d}"`, the id minted by `TemporalState.add_buff`. -/
def formatBuffId (n : ℕ) : String := ⟨['b', 'u', 'f', 'f', '_'] ++ pad3 n⟩

/-! ## Temporal state (`temporal_state.py`) -/

/-- `Buff` dataclass. -/
structure Buff where
  id : String
  name : String
  effects : List (String × ℚ)
  expiry_type : String
  expiry_value : Option ℚ
  description : String
deriving DecidableEq, Repr

/-- `TemporalState`: the active buff list plus the id counter. -/
structure TemporalState where
  active_buffs : List Buff
  buff_id_counter : ℕ
deriving DecidableEq, Repr

def TemporalState.initial : TemporalState := ⟨[], 0⟩

/-- `TemporalState.add_buff`.  Fails (raises `ValueError`) when a
non-permanent buff has no expiry value; otherwise mints the next id and
appends the buff. -/
def add_buff (ts : TemporalState) (name : String) (effects : List (String × ℚ))
    (expiry_type : String) (expiry_value : Option ℚ) (description : String) :
    Except String (TemporalState × String) :=
  if expiry_type ≠ "permanent" ∧ expiry_value = Option.none then
    .error ("expiry_value required for expiry_type=" ++ expiry_type)
  else
    let buffId := formatBuffId (ts.buff_id_counter + 1)
    .ok (⟨ts.active_buffs ++
        [⟨buffId, name, effects, expiry_type, expiry_value, description⟩],
        ts.buff_id_counter + 1⟩, buffId)

/-- Expiry test for one buff against the current temporal context
(the body of the loop in `TemporalState.check_expiry`). -/
def buffExpired (currentChapter : ℕ) (wordCount : ℚ) (timestamp : Option ℚ)
    (b : Buff) : Bool :=
  if b.expiry_type = "chapter" then
    match b.expiry_value with
    | some v => decide ((currentChapter : ℚ) ≥ v)
    | none => false
  else if b.expiry_type = "word_count" then
    match b.expiry_value with
    | some v => decide (wordCount ≥ v)
    | none => false
  else if b.expiry_type = "time" then
    match timestamp, b.expiry_value with
    | some t, some v => decide (t ≥ v)
    | _, _ => false
  else false

/-- `TemporalState.check_expiry`: drop every expired buff, returning the
expired ids and the surviving state. -/
def check_expiry (ts : TemporalState) (currentChapter : ℕ) (wordCount : ℚ)
    (timestamp : Option ℚ) : List String × TemporalState :=
  let expired := ts.active_buffs.filter (buffExpired currentChapter wordCount timestamp)
  let keep := ts.active_buffs.filter (fun b => ¬ buffExpired currentChapter wordCount timestamp b)
  (expired.map Buff.id, ⟨keep, ts.buff_id_counter⟩)

/-- `TemporalState.get_active_effects`: additive aggregation of all active
buffs' effects, in buff order, dict-insertion order for the keys. -/
def get_active_effects (ts : TemporalState) : List (String × ℚ) :=
  ts.active_buffs.foldl
    (fun acc b =>
      b.effects.foldl
        (fun acc2 e =>
          match AList.get acc2 e.1 with
          | some cur => AList.set acc2 e.1 (cur + e.2)
          | none => AList.set acc2 e.1 e.2)
        acc)
    []

/-! ## Formula engine (`formula_engine.py`)

The source stores formulas as strings and evaluates them with `simpleeval`
using a custom operator table.  The embedding represents formulas as the
abstract syntax trees `simpleeval` would build; string parsing is outside
the modelled scope.  The operator table is translated faithfully: `+ - *`
are exact decimal operations, `/` and `//` are BOTH mapped to `safe_div`
(so floor-division performs true division, as in the source), and `**` is
`safe_pow` with the exponent capped at 100.  The whitelisted functions
(`abs/max/min/int/round`) and comparison operators are not used by any
verified property and are omitted from the expression grammar. -/

/-- Expression AST for formula evaluation. -/
inductive Expr where
  | num (q : ℚ)
  | var (s : String)
  | add (a b : Expr)
  | sub (a b : Expr)
  | mul (a b : Expr)
  | div (a b : Expr)
  | floordiv (a b : Expr)
  | pow (a b : Expr)
deriving DecidableEq, Repr

/-- Failures surfaced by the evaluator.  `divisionByZero` is the dedicated
`ZeroDivisionError("Division by zero")` re-raised by `safe_div`;
`exponentTooLarge` is the `safe_pow` DoS guard; `nameNotDefined` is
`simpleeval`'s unknown-variable failure; `nonIntegerPower` marks
fractional exponents, whose inexact `Decimal.__pow__` result is outside
the modelled (exact-arithmetic) scope. -/
inductive EvalError where
  | divisionByZero
  | exponentTooLarge
  | nameNotDefined (n : String)
  | nonIntegerPower
deriving DecidableEq, Repr

/-- Evaluate an expression against a variable context, using the
`FormulaEngine.__init__` operator table. -/
def evalExpr (ctx : List (String × ℚ)) : Expr → Except EvalError ℚ
  | .num q => .ok q
  | .var s =>
    match AList.get ctx s with
    | some v => .ok v
    | none => .error (.nameNotDefined s)
  | .add a b => do return (← evalExpr ctx a) + (← evalExpr ctx b)
  | .sub a b => do return (← evalExpr ctx a) - (← evalExpr ctx b)
  | .mul a b => do return (← evalExpr ctx a) * (← evalExpr ctx b)
  | .div a b => do
    let x ← evalExpr ctx a
    let y ← evalExpr ctx b
    if y = 0 then throw .divisionByZero else return x / y
  | .floordiv a b => do
    -- the source maps `ast.FloorDiv` to the same `safe_div`
    let x ← evalExpr ctx a
    let y ← evalExpr ctx b
    if y = 0 then throw .divisionByZero else return x / y
  | .pow a b => do
    let x ← evalExpr ctx a
    let y ← evalExpr ctx b
    if y > 100 then throw .exponentTooLarge
    else if y.den = 1 then
      if x = 0 ∧ y < 0 then throw .divisionByZero else return x ^ y.num
    else throw .nonIntegerPower

/-- Variable names occurring in an expression, in textual order (the
source scans the formula string for identifiers; on the purely arithmetic
grammar above the identifiers are exactly the variables). -/
def collectVars : Expr → List String
  | .num _ => []
  | .var s => [s]
  | .add a b | .sub a b | .mul a b | .div a b | .floordiv a b | .pow a b =>
    collectVars a ++ collectVars b

/-- `FormulaEngine._extract_dependencies`: the identifier set (first
occurrences kept; the source stores a Python `set`, used only through
membership and iteration). -/
def extract_dependencies (e : Expr) : List String :=
  (collectVars e).foldl (fun acc s => if s ∈ acc then acc else acc ++ [s]) []

/-- `FormulaEngine` tables: formulas, dirty flags, dependency sets. -/
structure FormulaEngine where
  formulas : List (String × Expr)
  dirty_flags : List (String × Bool)
  dependencies : List (String × List String)
deriving DecidableEq, Repr

def FormulaEngine.empty : FormulaEngine := ⟨[], [], []⟩

/-- First `some` produced by `f` along the list (sequential propagation of
the first raised cycle error). -/
def firstSome {α β : Type} (f : α → Option β) : List α → Option β
  | [] => Option.none
  | a :: rest =>
    match f a with
    | some b => some b
    | none => firstSome f rest

/-- `FormulaEngine._detect_cycles`: depth-first search; each child call
receives copies of `visited` and `path` extended with the current field.
Returns the cycle path of the first cycle found.  The source's recursion
terminates because `visited` grows along every path, so any fuel larger
than the number of dependency-table entries is sufficient; callers pass
such a fuel. -/
def detect_cycles (deps : List (String × List String)) :
    ℕ → String → List String → List String → Option (List String)
  | 0, _, _, _ => Option.none
  | fuel + 1, start, visited, path =>
    if start ∈ visited then some (path ++ [start])
    else
      match AList.get deps start with
      | Option.none => Option.none
      | some ds =>
        firstSome (fun d => detect_cycles deps fuel d (start :: visited) (path ++ [start])) ds

/-- Render a cycle path the way the source does:
`' → '.join(path + [start_field])`. -/
def joinArrow : List String → String
  | [] => ""
  | [s] => s
  | s :: rest => s ++ " → " ++ joinArrow rest

/-- `FormulaEngine.register_formula`: install the formula, dirty flag and
dependency set, then run cycle detection; on a cycle, delete the three
entries again (rollback) and report the error.  Returns the resulting
engine and the error message, if any. -/
def register_formula (fe : FormulaEngine) (name : String) (expr : Expr) :
    FormulaEngine × Option String :=
  let fe' : FormulaEngine :=
    ⟨AList.set fe.formulas name expr,
     AList.set fe.dirty_flags name true,
     AList.set fe.dependencies name (extract_dependencies expr)⟩
  match detect_cycles fe'.dependencies (fe'.dependencies.length + 1) name [] [] with
  | some cyc =>
    (⟨AList.erase fe'.formulas name,
      AList.erase fe'.dirty_flags name,
      AList.erase fe'.dependencies name⟩,
     some ("Circular dependency detected: " ++ joinArrow cyc))
  | Option.none => (fe', Option.none)

/-- `FormulaEngine.mark_dirty`: flag every formula depending on the field. -/
def mark_dirty (fe : FormulaEngine) (base_field : String) : FormulaEngine :=
  ⟨fe.formulas,
   fe.dependencies.foldl
     (fun flags p => if base_field ∈ p.2 then AList.set flags p.1 true else flags)
     fe.dirty_flags,
   fe.dependencies⟩

/-- Failures surfaced by `FormulaEngine.recalculate`.  The source raises
`ValueError`/`KeyError` with distinguishing messages; the constructors
record which failure occurred (`evalFailed` corresponds to the wrapper
`ValueError(f"Error evaluating formula '{name} = {expr}': {inner}")`,
keeping the inner error distinguishable). -/
inductive FormulaError where
  | unknownFormula (f : String)
  | missingDeps (f : String) (ds : List String)
  | evalFailed (f : String) (e : EvalError)
deriving DecidableEq, Repr

/-- `FormulaEngine.recalculate`.  Context values are already exact
decimals in the model, so the per-key decimal conversion always succeeds;
the dirty-flag clear on success touches only `dirty_flags`, which no other
modelled operation reads, and is omitted. -/
def recalculate (fe : FormulaEngine) (field : String) (ctx : List (String × ℚ)) :
    Except FormulaError ℚ :=
  match AList.get fe.formulas field with
  | Option.none => .error (.unknownFormula field)
  | some expr =>
    let deps := (AList.get fe.dependencies field).getD []
    let missing := deps.filter (fun d => (AList.get ctx d).isNone)
    if missing ≠ [] then .error (.missingDeps field missing)
    else
      match evalExpr ctx expr with
      | .ok v => .ok v
      | .error e => .error (.evalFailed field e)

/-- `FormulaEngine.get_all_computed_stats`: evaluate every registered
formula in registration order; the first failure propagates. -/
def get_all_computed_stats (fe : FormulaEngine) (ctx : List (String × ℚ)) :
    Except FormulaError (List (String × ℚ)) :=
  fe.formulas.foldlM
    (fun acc p => do
      let v ← recalculate fe p.1 ctx
      return acc ++ [(p.1, v)])
    []

/-! ## World schema and unit registry (`world_schema.py`, `unit_registry.py`) -/

/-- The conversion table of a `WorldSchema`: unit → rate-to-base, in
insertion order.  `WorldSchema.__post_init__`/`validate` require the base
unit to be present with rate exactly 1 and every rate to be positive. -/
def schemaValid (conversions : List (String × ℚ)) (baseUnit : String) : Prop :=
  AList.get conversions baseUnit = some 1 ∧
  (∀ p ∈ conversions, 0 < p.2) ∧
  (conversions.map Prod.fst).Nodup

instance (conversions : List (String × ℚ)) (baseUnit : String) :
    Decidable (schemaValid conversions baseUnit) := by
  unfold schemaValid; infer_instance

/-- The classic-fantasy preset (`WorldSchema.classic_fantasy`), the default
schema a `LedgerEngine` is constructed with. -/
def classicFantasy : List (String × ℚ) := [("GP", 100), ("SP", 10), ("CP", 1)]

/-- `UnitRegistry.to_base`: multiply by the unit's rate; unknown units
pass through 1:1 (auto-discovery fallback, the warning print is outside
the model). -/
def to_base (conversions : List (String × ℚ)) (value : ℚ) (unit : String) : ℚ :=
  match AList.get conversions unit with
  | Option.none => value
  | some rate => value * rate

/-- Stable insertion step for a descending sort by key.  The fold below
inserts earlier list elements later, so stability — equal keys keep
their original relative order, as in Python's stable
`sorted(..., reverse=True)` — means the new element passes strictly
larger keys only and lands in front of the first equal-or-smaller key. -/
def insertDescBy {α : Type} (key : α → ℚ) (x : α) : List α → List α
  | [] => [x]
  | y :: ys => if key x < key y then y :: insertDescBy key x ys else x :: y :: ys

/-- Stable descending sort by a rational key. -/
def sortDescBy {α : Type} (key : α → ℚ) (l : List α) : List α :=
  l.foldr (insertDescBy key) []

/-- `sorted(conversions.items(), key=rate, reverse=True)` (stable). -/
def sortDesc (l : List (String × ℚ)) : List (String × ℚ) :=
  sortDescBy Prod.snd l

/-- `Decimal.__floordiv__` on non-negative operands: the integer quotient. -/
def decFloorDiv (a b : ℚ) : ℚ := (⌊a / b⌋ : ℤ)

/-- The breakdown loop of `UnitRegistry.from_base` (no target unit):
walk the rate-sorted units, skipping already-seen rates (alias
deduplication) and non-base rate-1 units; the base unit receives the
current remainder, other units receive their integer multiple. -/
def breakdownGo (baseUnit : String) :
    List (String × ℚ) → ℚ → List ℚ → List (String × ℚ) →
    List (String × ℚ) × ℚ
  | [], remaining, _, acc => (acc, remaining)
  | (u, r) :: rest, remaining, processed, acc =>
    if r ∈ processed ∧ u ≠ baseUnit then
      breakdownGo baseUnit rest remaining processed acc
    else if r = 1 ∧ u ≠ baseUnit then
      breakdownGo baseUnit rest remaining processed acc
    else if u = baseUnit then
      breakdownGo baseUnit rest remaining (r :: processed) (acc ++ [(u, remaining)])
    else
      let count := decFloorDiv remaining r
      if count > 0 then
        breakdownGo baseUnit rest (remaining - count * r) (r :: processed) (acc ++ [(u, count)])
      else
        breakdownGo baseUnit rest remaining processed acc

/-- `UnitRegistry.from_base(value)` with no target unit: the canonical
largest-unit-first breakdown, plus the trailing safeguard that books any
positive remainder under the base unit when it is absent. -/
def from_base (conversions : List (String × ℚ)) (baseUnit : String) (value : ℚ) :
    List (String × ℚ) :=
  let (result, remaining) := breakdownGo baseUnit (sortDesc conversions) value [] []
  if remaining > 0 ∧ (AList.get result baseUnit).isNone then
    result ++ [(baseUnit, remaining)]
  else result

/-- The reconstruction sum of a breakdown: quantity × that unit's
conversion rate, summed over the entries (unknown units count 1:1,
mirroring `to_base`'s fallback). -/
def breakdownSum (conversions : List (String × ℚ)) (breakdown : List (String × ℚ)) : ℚ :=
  (breakdown.map (fun p => p.2 * ((AList.get conversions p.1).getD 1))).sum

/-! ## Events (`§3` of the spec; the dynamic dicts of the source) -/

/-- Audit entry appended by `RuleEngine.apply_rules` (`applied_rules`).
The source stores the before/after values as strings; they are modelled
by their numeric content. -/
structure AppliedRule where
  rule_id : String
  description : String
  original_value : ℚ
  modified_value : ℚ
deriving DecidableEq, Repr

/-- An event record.  Every key the engine reads is a field; a missing
dict key is `none` (for `action`/`type`, which the source only compares
against non-empty literals, a missing key is the empty string). -/
structure Event where
  event_id : Option ℕ := Option.none
  action : String := ""
  type : String := ""
  value : Option NumStr := Option.none
  unit : Option String := Option.none
  name : Option String := Option.none
  qty : Option NumStr := Option.none
  effects : List (String × NumStr) := []
  expiry_type : Option String := Option.none
  expiry_value : Option ℚ := Option.none
  description : Option String := Option.none
  reason : Option String := Option.none
  word_count_delta : Option ℚ := Option.none
  timestamp : Option ℚ := Option.none
  requires_manual_fix : Bool := false
  is_implicit : Bool := false
  logs : List String := []
  original_name : Option String := Option.none
  applied_rules : List AppliedRule := []
deriving DecidableEq, Repr

/-! ## Rule engine (`rule_engine.py`) -/

/-- A global modifier rule. -/
structure Rule where
  id : String
  target_type : String
  operation : String
  modifier : ℚ
  condition : Option String := Option.none
  description : String := ""
deriving DecidableEq, Repr

/-- One step of the rule-application loop: rules with a condition are
skipped (conditions are an unimplemented extension point), rules only act
when the event carries a `value` key, and the value plus an audit entry
are updated.  The source reads the current value with `Decimal(str(...))`,
which fails on a non-numeric string; that path is outside every verified
property (each appears with a numeric or absent value, or with no rules),
and the model leaves such events unchanged. -/
def applyOneRule (ev : Event) (r : Rule) : Event :=
  if r.condition.isSome then ev
  else
    match ev.value with
    | some (.num cur) =>
      let newVal : Option ℚ :=
        if r.operation = "multiply" then some (cur * r.modifier)
        else if r.operation = "add" then some (cur + r.modifier)
        else if r.operation = "set" then some r.modifier
        else Option.none
      match newVal with
      | Option.none => ev
      | some nv =>
        { ev with
          value := some (.num nv),
          applied_rules := ev.applied_rules ++ [⟨r.id, r.description, cur, nv⟩] }
    | _ => ev

/-- `RuleEngine.apply_rules`: deep-copy the event (value semantics here)
and fold the matching rules over it in registration order. -/
def apply_rules (rules : List Rule) (ev : Event) : Event :=
  let matching := rules.filter (fun r => r.target_type = ev.type ∨ r.target_type = "any")
  matching.foldl applyOneRule ev

/-! ## Fuzzy item-name matching (`LedgerEngine.normalize_entity_name`) -/

/-- Numeral-stripped skeleton: `re.sub(r'\d+', '', name)`. -/
def stripDigits (s : String) : String := ⟨s.data.filter (fun c => ¬ c.isDigit)⟩

/-- Coarse model of `difflib.SequenceMatcher(None, a.lower(), b.lower()).ratio()`:
case-insensitive equality scores 1, everything else 0.  No verified
property depends on the score of genuinely different strings. -/
def similarity (a b : String) : ℚ := if a.toLower = b.toLower then 1 else 0

/-- `LedgerEngine.normalize_entity_name`: exact match short-circuits;
numeral-skeleton-equal-but-different candidates are excluded; remaining
candidates with similarity > 0.9 are ranked; a runner-up within 0.1 of the
best makes the match ambiguous. -/
def normalize_entity_name (raw : String) (existing : List String) : String × Bool :=
  if raw = "" ∨ existing = [] then (raw, false)
  else if raw ∈ existing then (raw, false)
  else
    let rawSk := stripDigits raw
    let candidates := existing.filterMap (fun nm =>
      if stripDigits nm = rawSk ∧ raw ≠ nm then Option.none
      else
        let r := similarity raw nm
        if r > 9/10 then some (r, nm) else Option.none)
    match sortDescBy Prod.fst candidates with
    | [] => (raw, false)
    | (br, bn) :: rest =>
      if br < 9/10 then (raw, false)
      else
        match rest with
        | (sr, _) :: _ => if br - sr < 1/10 then (raw, true) else (bn, false)
        | [] => (bn, false)

/-! ## Ledger state and replay (`ledger_engine.py`) -/

/-- The derived state (`LedgerEngine._get_initial_state`). -/
structure LState where
  gold_cp : ℚ := 0
  inventory : List (String × ℚ) := []
  stats : List (String × ℚ) := []
  computed_stats : List (String × ℚ) := []
  buffs : List String := []
  alerts : List String := []
deriving DecidableEq, Repr

/-- The temporal replay context tracked inside `reduce`. -/
structure Ctx where
  chapter : ℕ := 0
  word_count : ℚ := 0
  timestamp : Option ℚ := Option.none
deriving DecidableEq, Repr

/-- The configuration a `LedgerEngine` replays with: the strict/draft
flag, the schema's conversion table, and the formula engine.  (The rule
engine is deliberately absent: `_apply_event` never consults it.) -/
structure Cfg where
  strict_mode : Bool := false
  conversions : List (String × ℚ) := classicFantasy
  fe : FormulaEngine := FormulaEngine.empty
deriving DecidableEq, Repr

/-- The base-unit amount of a gold event:
`to_base(clean_number(str(value_raw)), unit)`. -/
def goldAmount (cfg : Cfg) (e : Event) : ℚ :=
  to_base cfg.conversions (clean_number (e.value.getD (.num 0))) (e.unit.getD "CP")

/-- The fuzzy-match outcome for an item event against the current
inventory keys. -/
def itemMatch (st : LState) (e : Event) : String × Bool :=
  normalize_entity_name (e.name.getD "") (st.inventory.map Prod.fst)

/-- The inventory key an item event operates on (the raw name when the
match is ambiguous, the matched name otherwise). -/
def itemKey (st : LState) (e : Event) : String :=
  if (itemMatch st e).2 then e.name.getD "" else (itemMatch st e).1

/-- The item event after the fuzzy-match annotations (ambiguity flagging
or back-annotation of the matched name). -/
def itemAnnotated (st : LState) (e : Event) : Event :=
  if (itemMatch st e).2 then
    { e with requires_manual_fix := true,
             logs := e.logs ++
               ["Ambiguous match for '" ++ e.name.getD "" ++ "' - please verify."] }
  else if (itemMatch st e).1 ≠ e.name.getD "" then
    { e with original_name := some (e.name.getD ""),
             name := some (itemMatch st e).1,
             logs := e.logs ++
               ["Fuzzy Matched: " ++ e.name.getD "" ++ " -> " ++ (itemMatch st e).1] }
  else e

/-- Sanitised quantity of an item event. -/
def itemQty (e : Event) : ℚ := clean_number (e.qty.getD (.num 1))

/-- Current inventory quantity under the event's key. -/
def itemCurrent (st : LState) (e : Event) : ℚ :=
  (AList.get st.inventory (itemKey st e)).getD 0

/-- Sanitised value of a stat event. -/
def statValue (e : Event) : ℚ := clean_number (e.value.getD (.num 0))

/-- Current value of the stat named by the event. -/
def statCurrent (st : LState) (e : Event) : ℚ :=
  (AList.get st.stats (e.name.getD "")).getD 0

/-- The expiry type after the soft-fallback default (`None`/empty —
Python-falsy — becomes "chapter"). -/
def buffExpiryType (e : Event) : String :=
  match e.expiry_type with
  | Option.none => "chapter"
  | some s => if s = "" then "chapter" else s

/-- The expiry value after the soft-fallback default (a Python-falsy
value — `None` or 0 — becomes 1 for non-permanent buffs). -/
def buffExpiryValue (e : Event) : Option ℚ :=
  if e.expiry_value = Option.none ∨ e.expiry_value = some 0 then
    (if buffExpiryType e ≠ "permanent" then some (1 : ℚ) else e.expiry_value)
  else e.expiry_value

/-- Buff effects after per-entry sanitisation (`_clean_number` on each
value; a value with no numeric content becomes 0 — the `Decimal` test
conversion never fails on a cleaned string, so no entry is dropped). -/
def sanitizedEffects (e : Event) : List (String × ℚ) :=
  e.effects.map (fun p => (p.1, clean_number p.2))

/-- `LedgerEngine._apply_event`: apply one event to the state.  Returns
the updated temporal state, ledger state, and the (possibly annotated)
event — the source annotates the event dict in place.  `.error` models a
raised `ValueError`.  The `mark_dirty` call in the stat branch mutates
only `dirty_flags`, which nothing in the replay path reads, and is
omitted (see the formula-engine notes). -/
def apply_event (cfg : Cfg) (ts : TemporalState) (st : LState) (e : Event) :
    Except String (TemporalState × LState × Event) :=
  if e.type = "gold" then
    if (e.value.getD (.num 0)).isIndeterminate then
      .ok (ts, st, { e with requires_manual_fix := true })
    else if e.action = "gain" then
      .ok (ts, { st with gold_cp := st.gold_cp + goldAmount cfg e }, e)
    else if e.action = "lose" then
      if st.gold_cp < goldAmount cfg e then
        if cfg.strict_mode then
          .error "Insufficient gold"
        else
          .ok (ts, { st with gold_cp := st.gold_cp - goldAmount cfg e },
               { e with is_implicit := true,
                        logs := e.logs ++ ["Warning: Gold underflow allowed in Draft Mode"] })
      else
        .ok (ts, { st with gold_cp := st.gold_cp - goldAmount cfg e }, e)
    else if e.action = "set" then
      .ok (ts, { st with gold_cp := goldAmount cfg e }, e)
    else .ok (ts, st, e)
  else if e.type = "item" then
    if (e.qty.getD (.num 1)).isIndeterminate then
      .ok (ts, st, { itemAnnotated st e with requires_manual_fix := true })
    else if itemQty e ≤ 0 ∧ cfg.strict_mode then
      .error "Invalid quantity"
    else if e.action = "gain" then
      .ok (ts, { st with inventory :=
                   AList.set st.inventory (itemKey st e) (itemCurrent st e + itemQty e) },
           itemAnnotated st e)
    else if e.action = "lose" then
      if itemCurrent st e < itemQty e then
        if cfg.strict_mode then
          .error ("Insufficient " ++ itemKey st e)
        else
          .ok (ts, { st with inventory :=
                       AList.set st.inventory (itemKey st e) (itemCurrent st e - itemQty e) },
               { itemAnnotated st e with
                   is_implicit := true,
                   logs := (itemAnnotated st e).logs ++
                     ["Warning: Item " ++ itemKey st e ++ " underflow allowed"] })
      else
        .ok (ts, { st with inventory :=
                     AList.set st.inventory (itemKey st e) (itemCurrent st e - itemQty e) },
             itemAnnotated st e)
    else .ok (ts, st, itemAnnotated st e)
  else if e.type = "stat" then
    if (e.value.getD (.num 0)).isIndeterminate then
      .ok (ts, st, { e with requires_manual_fix := true })
    else if e.action = "gain" then
      .ok (ts, { st with stats :=
                   AList.set st.stats (e.name.getD "") (statCurrent st e + statValue e) }, e)
    else if e.action = "lose" then
      .ok (ts, { st with stats :=
                   AList.set st.stats (e.name.getD "") (statCurrent st e - statValue e) }, e)
    else if e.action = "set" then
      .ok (ts, { st with stats := AList.set st.stats (e.name.getD "") (statValue e) }, e)
    else .ok (ts, st, e)
  else if e.type = "buff" then
    if e.action = "gain" then
      match add_buff ts (e.name.getD "Unknown Buff") (sanitizedEffects e)
          (buffExpiryType e) (buffExpiryValue e) (e.description.getD "") with
      | .error msg => .error msg
      | .ok (ts', bid) =>
        .ok (ts',
             { st with buffs := if bid ∈ st.buffs then st.buffs else st.buffs ++ [bid] },
             { e with expiry_type := some (buffExpiryType e),
                      expiry_value := buffExpiryValue e })
    else .ok (ts, st, e)
  else
    -- "chapter_start" and "word_count_delta" are pure temporal markers;
    -- unknown types likewise fall through unchanged.
    .ok (ts, st, e)

/-- Result of the replay loop: on success the final temporal state,
context, ledger state and the annotated event list; on a raised exception
the temporal state at the failure point and the message. -/
inductive ReduceRes where
  | ok (ts : TemporalState) (ctx : Ctx) (st : LState) (evts : List Event)
  | err (ts : TemporalState) (msg : String)
deriving DecidableEq, Repr

/-- The temporal-context update at the top of the replay loop: a
`chapter_start` TYPE increments the chapter; the PRESENCE of a
`word_count_delta` key accumulates; the presence of a `timestamp` key
overwrites the current timestamp. -/
def updateCtx (ctx : Ctx) (e : Event) : Ctx :=
  { chapter := if e.type = "chapter_start" then ctx.chapter + 1 else ctx.chapter,
    word_count :=
      match e.word_count_delta with
      | some d => ctx.word_count + d
      | Option.none => ctx.word_count,
    timestamp :=
      match e.timestamp with
      | some t => some t
      | Option.none => ctx.timestamp }

/-- The expiry step of the replay loop: run `check_expiry` against the
(already updated) context and strip the expired ids from the state's
active-buff list. -/
def expireStep (ts : TemporalState) (ctx : Ctx) (st : LState) :
    TemporalState × LState :=
  ((check_expiry ts ctx.chapter ctx.word_count ctx.timestamp).2,
   { st with buffs := (st.buffs.filter (fun b =>
       ¬ b ∈ (check_expiry ts ctx.chapter ctx.word_count ctx.timestamp).1)) })

/-- The per-event loop of `LedgerEngine.reduce`: update the temporal
context from the event's markers, check buff expiry against the updated
context BEFORE applying the event, then apply the event. -/
def reduceGo (cfg : Cfg) :
    TemporalState → Ctx → LState → List Event → ReduceRes
  | ts, ctx, st, [] => .ok ts ctx st []
  | ts, ctx, st, e :: rest =>
    match apply_event cfg (expireStep ts (updateCtx ctx e) st).1
        (expireStep ts (updateCtx ctx e) st).2 e with
    | .error msg => .err (expireStep ts (updateCtx ctx e) st).1 msg
    | .ok (ts2, st2, e2) =>
      match reduceGo cfg ts2 (updateCtx ctx e) st2 rest with
      | .ok ts' ctx' st' evts' => .ok ts' ctx' st' (e2 :: evts')
      | .err ts' msg => .err ts' msg

/-- The critical stat names scanned for negative values. -/
def criticalKeys : List String :=
  ["HP", "HEALTH", "LIFE", "MP", "MANA", "STAMINA", "ENERGY"]

/-- Render a formula failure the way the raised exception's message would
read (the numeric details are immaterial to the verified properties). -/
def formulaErrorMessage : FormulaError → String
  | .unknownFormula f => "Unknown formula: " ++ f
  | .missingDeps f _ => "Missing required stats for " ++ f
  | .evalFailed f _ => "Error evaluating formula " ++ f

/-- The formula-evaluation context built at the end of `reduce`: base
stats plus the additively aggregated buff effects, with the final
`chapter` and `word_count` injected as synthetic variables. -/
def combinedStats (ts : TemporalState) (ctx : Ctx) (st : LState) :
    List (String × ℚ) :=
  AList.set
    (AList.set
      ((get_active_effects ts).foldl
        (fun acc p => AList.set acc p.1 (((AList.get acc p.1).getD 0) + p.2))
        st.stats)
      "chapter" (ctx.chapter : ℚ))
    "word_count" ctx.word_count

/-- The final state assembly of `reduce`: install the computed stats and
regenerate the critical-state alerts from the union of base and computed
stats. -/
def assembleState (st : LState) (computed : List (String × ℚ)) : LState :=
  { st with
      computed_stats := computed,
      alerts := (((computed.foldl (fun acc p => AList.set acc p.1 p.2)
          st.stats).filter
            (fun p => p.1.toUpper ∈ criticalKeys ∧ p.2 < 0)).map
        (fun p => "CRITICAL: " ++ p.1 ++ " is negative")) }

/-- `LedgerEngine.reduce`: replay the events from the empty state and a
fresh context — but against the engine's CURRENT temporal state, which the
source does not reset — then combine base stats with the aggregated buff
effects, inject `chapter`/`word_count`, recompute every registered
formula, and regenerate the critical-state alerts.  Returns the updated
temporal state, the annotated event list, and the computed state.  The
source mutates `self.temporal_state` in place as it replays, so a raised
exception leaves the mutations made up to the failure point behind: the
error carries the temporal state at the point of failure (for a formula
failure, the post-loop temporal state), which the caller persists. -/
def reduce (cfg : Cfg) (ts : TemporalState) (events : List Event) :
    Except (TemporalState × String) (TemporalState × List Event × LState) :=
  match reduceGo cfg ts {} {} events with
  | .err tsf msg => .error (tsf, msg)
  | .ok ts' ctx' st' evts' =>
    match get_all_computed_stats cfg.fe (combinedStats ts' ctx' st') with
    | .error fe => .error (ts', formulaErrorMessage fe)
    | .ok computed => .ok (ts', evts', assembleState st' computed)

/-! ## Security bounds validation and commit protocols -/

/-- `LedgerEngine.UNROBUST_STATS`: names/units allowed a high gain cap. -/
def unrobustStats : List String :=
  ["XP", "EXPERIENCE",
   "GOLD", "GP", "SP", "CP", "CREDITS", "MONEY", "USD", "$", "CENT",
   "HEALTH", "HP", "LIFE",
   "MANA", "MP", "MAGIC",
   "STAMINA", "ENERGY",
   "FATIGUE", "DEBT", "STRESS",
   "DAMAGE", "DEFENSE", "ATTACK", "POWER"]

/-- The prompt-injection keyword blocklist. -/
def blockedKeywords : List String :=
  ["ignoreprompt", "ignoreprevious", "cheatcode", "developeroverride",
   "systemoverride", "ignoreinstructions", "disregardprevious"]

/-- Does `needle` occur as a prefix of `hay`? -/
def isPrefOf : List Char → List Char → Bool
  | [], _ => true
  | _ :: _, [] => false
  | a :: as, b :: bs => a = b && isPrefOf as bs

/-- Does `needle` occur as a contiguous substring of `hay`? -/
def infixOf (needle : List Char) : List Char → Bool
  | [] => needle.isEmpty
  | c :: rest => isPrefOf needle (c :: rest) || infixOf needle rest

/-- `re.sub(r'[\s_\W]+', '', reason.lower())`: lowercase, then keep only
alphanumeric characters. -/
def normalizeReason (s : String) : List Char :=
  s.toLower.data.filter Char.isAlphanum

/-- `LedgerEngine._validate_security_rules`: keyword blocklist over the
normalized reason, then the gain caps (high cap for whitelisted
currency/stat names, 10000 default for gold, 20 for generic stats, fixed
50 for item quantities). -/
def validate_security_rules (e : Event) : Bool × String :=
  let norm := normalizeReason (e.reason.getD "")
  match blockedKeywords.find? (fun kw => infixOf kw.data norm) with
  | some kw =>
    (false, "Security Alert: Blocked suspicious keyword '" ++ kw ++ "'")
  | Option.none =>
    if e.action = "gain" then
      let val := clean_number (e.value.getD (.num 0))
      if e.type = "gold" then
        let unit := (e.unit.getD "").toUpper
        let limit : ℚ := if unit ∈ unrobustStats then 999999 else 10000
        if val > limit then
          (false, "Security Alert: Gold/Currency gain exceeds safety limit")
        else (true, "Safe")
      else if e.type = "stat" then
        let nm := (e.name.getD "").toUpper
        let limit : ℚ := if nm ∈ unrobustStats then 999999 else 20
        if val > limit then
          (false, "Security Alert: Stat increase exceeds safety limit")
        else (true, "Safe")
      else if e.type = "item" then
        let q := clean_number (e.qty.getD (.num 1))
        if q > 50 then
          (false, "Security Alert: Item quantity exceeds safety limit (50)")
        else (true, "Safe")
      else (true, "Safe")
    else (true, "Safe")

/-- A `LedgerEngine` instance: configuration, rule engine, event log, id
counter and the (engine-owned, mutable) temporal state.  The state cache
(`_cached_state`/`_events_hash`) and file persistence are process-level
plumbing outside the verified surface and are not part of the record. -/
structure Engine where
  cfg : Cfg := {}
  rules : List Rule := []
  events : List Event := []
  event_id_counter : ℕ := 0
  temporal : TemporalState := TemporalState.initial
deriving DecidableEq, Repr

/-- The candidate event `add_event` validates and appends: the next id is
assigned, then the rule engine transforms it. -/
def preparedEvent (eng : Engine) (ev : Event) : Event :=
  apply_rules eng.rules { ev with event_id := some (eng.event_id_counter + 1) }

/-- `LedgerEngine.add_event`: assign the next id, run the rule engine,
replay the tentative log, reject on a replay exception or (in strict mode)
a negative balance, otherwise commit.  On EVERY path the engine keeps the
temporal state the tentative replay left behind — the failure-point state
when the replay raised, the post-replay state otherwise — because the
source never restores `self.temporal_state`.  The replay annotates event
dicts in place, so the committed log is the annotated list returned by
`reduce`; on a rejection after a successful replay the already-stored
prefix keeps those annotations.  (When the replay itself raises, the
source similarly keeps annotations made before the raise; the verified
properties only exercise that branch on replay-stable logs, where there
are none, and the model leaves the log untouched there.) -/
def add_event (eng : Engine) (ev : Event) : Engine × Bool × String :=
  match reduce eng.cfg eng.temporal (eng.events ++ [preparedEvent eng ev]) with
  | .error (tsf, msg) =>
    ({ eng with event_id_counter := eng.event_id_counter + 1, temporal := tsf },
     false, "事件校验失败: " ++ msg)
  | .ok (ts', evts', st) =>
    if eng.cfg.strict_mode ∧ st.gold_cp < 0 then
      ({ eng with event_id_counter := eng.event_id_counter + 1, temporal := ts',
                  events := evts'.take eng.events.length },
       false, "金币不足 (会导致负值)")
    else if eng.cfg.strict_mode ∧ (st.inventory.find? (fun p => p.2 < 0)).isSome then
      ({ eng with event_id_counter := eng.event_id_counter + 1, temporal := ts',
                  events := evts'.take eng.events.length },
       false, "物品数量不足 (会导致负值)")
    else if eng.cfg.strict_mode ∧ (st.stats.find? (fun p => p.2 < 0)).isSome then
      ({ eng with event_id_counter := eng.event_id_counter + 1, temporal := ts',
                  events := evts'.take eng.events.length },
       false, "属性不能为负数")
    else
      ({ eng with event_id_counter := eng.event_id_counter + 1, temporal := ts',
                  events := evts' },
       true, "Success")

/-- The conversion loop at the top of `process_batch`: each transaction is
security-checked and, if safe, given the next id.  Returns the counter
after the increments actually performed (kept even when a later
transaction is blocked) and either the prepared events or the first
security message. -/
def batchAssign : ℕ → List Event → ℕ × Except String (List Event)
  | ctr, [] => (ctr, .ok [])
  | ctr, tx :: rest =>
    let v := validate_security_rules tx
    if ¬ v.1 then (ctr, .error ("⛔ Transaction Blocked: " ++ v.2))
    else
      match batchAssign (ctr + 1) rest with
      | (ctr', .ok evs) => (ctr', .ok ({ tx with event_id := some (ctr + 1) } :: evs))
      | (ctr', .error m) => (ctr', .error m)

/-- The success-log line for one committed event (the numeric rendering of
the f-strings is immaterial to the verified properties and elided). -/
def successLog (e : Event) : Option String :=
  if e.type = "gold" then some (e.action.toUpper ++ " " ++ e.unit.getD "CP")
  else if e.type = "item" then some (e.action.toUpper ++ " " ++ e.name.getD "")
  else if e.type = "stat" then some (e.action.toUpper ++ " " ++ e.name.getD "")
  else if e.type = "buff" then some ("Buff Applied: " ++ e.name.getD "")
  else Option.none

/-- `LedgerEngine.process_batch`: security-validate and id-assign every
transaction (any failure rejects the whole batch before anything is
replayed or appended), replay the tentative combined log once, reject on a
replay exception or (strict mode) negative gold/item balances, otherwise
commit all events and emit the per-event success lines.  Unlike
`add_event`, the batch path performs NO rule-engine transformation. -/
def process_batch (eng : Engine) (txs : List Event) : Engine × Bool × List String :=
  match batchAssign eng.event_id_counter txs with
  | (ctr', .error m) => ({ eng with event_id_counter := ctr' }, false, [m])
  | (ctr', .ok evs) =>
    match reduce eng.cfg eng.temporal (eng.events ++ evs) with
    | .error (tsf, msg) =>
      ({ eng with event_id_counter := ctr', temporal := tsf },
       false, ["交易批次失败: " ++ msg])
    | .ok (ts', evts', st) =>
      if eng.cfg.strict_mode ∧ st.gold_cp < 0 then
        ({ eng with event_id_counter := ctr', temporal := ts',
                    events := evts'.take eng.events.length },
         false, ["交易批次失败: 金币不足"])
      else if eng.cfg.strict_mode ∧ (st.inventory.find? (fun p => p.2 < 0)).isSome then
        ({ eng with event_id_counter := ctr', temporal := ts',
                    events := evts'.take eng.events.length },
         false, ["交易批次失败: 物品数量不足"])
      else
        ({ eng with event_id_counter := ctr', temporal := ts', events := evts' },
         true, (evts'.drop eng.events.length).filterMap successLog)

/-! ## Claim-scenario definitions and shared measures

Concrete configurations, events and engines used by the claim theorems
and their witnesses below, together with the derived measures
(audit keys, temporal counters) the lemmas are stated with. -/

/-- `A = B * 2`. -/
def c6ExprA : Expr := Expr.mul (Expr.var "B") (Expr.num 2)

/-- `B = A / 2`. -/
def c6ExprB : Expr := Expr.div (Expr.var "A") (Expr.num 2)

/-- The engine after registering `A`. -/
def c6AfterA : FormulaEngine × Option String :=
  register_formula FormulaEngine.empty "A" c6ExprA

/-- The engine after then attempting to register `B`. -/
def c6AfterB : FormulaEngine × Option String :=
  register_formula c6AfterA.1 "B" c6ExprB

/-- Formula engine with `Q = x / y` registered. -/
def c8Div : FormulaEngine :=
  (register_formula FormulaEngine.empty "Q" (Expr.div (Expr.var "x") (Expr.var "y"))).1

/-- Formula engine with `R = x // y` registered (the source maps `//` to
the same `safe_div`). -/
def c8FloorDiv : FormulaEngine :=
  (register_formula FormulaEngine.empty "R"
    (Expr.floordiv (Expr.var "x") (Expr.var "y"))).1

/-- A schema that passes every `WorldSchema` validation rule (base unit
present with rate exactly 1, all rates positive) but contains a unit
smaller than the base unit. -/
def c9Weird : List (String × ℚ) := [("B", 1), ("H", 1/2)]

/-- Configuration exposing the replay word-count counter through a
computed stat (`reduce` injects `word_count` into the formula context). -/
def c7Cfg : Cfg :=
  { fe := (register_formula FormulaEngine.empty "WC" (Expr.var "word_count")).1 }

/-- An event whose `type` is `word_count_delta`, carrying its delta in the
`value` field (the shape §3's data model suggests) — but no dict key
literally named `word_count_delta`. -/
def c7Event : Event := { type := "word_count_delta", value := some (.num 500) }

/-- A registered unconditional rule: every gold value is set to 7. -/
def c3Rule : Rule := ⟨"rule_001", "gold", "set", 7, Option.none, "inflation"⟩

/-- An engine with that rule registered. -/
def c3Engine : Engine := { rules := [c3Rule] }

/-- A gold transaction whose value the rule should transform. -/
def c3Tx : Event :=
  { type := "gold", action := "gain", value := some (.num 100), unit := some "CP" }

/-- An engine with empty log, and the spec's example batch: three valid
gold gains followed by one security-blocked item gain (quantity 51 over
the fixed cap of 50). -/
def c5Engine : Engine := {}

/-- A valid transaction for the C5 batch. -/
def c5Good : Event :=
  { type := "gold", action := "gain", value := some (.num 10), unit := some "CP" }

/-- The blocked transaction for the C5 batch: item gain above the cap. -/
def c5Bad : Event :=
  { type := "item", action := "gain", name := some "Gem", qty := some (.num 51) }

/-- Fields of an event that `_apply_event` never writes: the id, the
value, and the rule audit trail. -/
def auditKey (e : Event) : Option ℕ × Option NumStr × List AppliedRule :=
  (e.event_id, e.value, e.applied_rules)

/-- Number of `chapter_start` events in a list. -/
def chapterCount (es : List Event) : ℕ :=
  es.countP (fun e => e.type = "chapter_start")

/-- Sum of the `word_count_delta` FIELDS present in a list of events
(regardless of event types). -/
def wcdSum (es : List Event) : ℚ :=
  (es.filterMap Event.word_count_delta).sum

/-- A bare chapter-start marker. -/
def c7ChapterEvent : Event := { type := "chapter_start" }

/-- The value and rule-audit components of an event: exactly what a rule
application changes and what replay never touches. -/
def ruleKey (e : Event) : Option NumStr × List AppliedRule := (e.value, e.applied_rules)

/-- A strict-mode engine with an empty log, for exercising rejections. -/
def c10Engine : Engine := { cfg := { strict_mode := true } }

/-- A gold spend that strict mode rejects on the empty log. -/
def c10Lose : Event :=
  { type := "gold", action := "lose", value := some (.num 5), unit := some "CP" }

/-- A gold gain that commits. -/
def c10Gain : Event :=
  { type := "gold", action := "gain", value := some (.num 5), unit := some "CP" }

/-- The committed form of a draft-mode underflowing gold spend: id
assigned, `is_implicit` set, warning appended. -/
def c4Flagged (eng : Engine) (ev : Event) : Event :=
  { ev with event_id := some (eng.event_id_counter + 1),
            is_implicit := true,
            logs := ev.logs ++ ["Warning: Gold underflow allowed in Draft Mode"] }

/-- A fresh draft-mode engine: default config (strict off, classic-fantasy
schema, no formulas), empty log, no rules. -/
def c4Eng : Engine := {}

/-- The same fresh engine with strict mode on. -/
def c4EngStrict : Engine := { cfg := { strict_mode := true } }

/-- A spend of 5 copper against the zero opening balance. -/
def c4Ev : Event :=
  { type := "gold", action := "lose", value := some (.num 5), unit := some "CP" }

/-- The C2 buff event: gain "Blessing", expiring at chapter 3. -/
def c2BuffEvent : Event :=
  { type := "buff", action := "gain", name := some "Blessing",
    expiry_type := some "chapter", expiry_value := some 3 }

/-- The stored buff minted for `c2BuffEvent` on a fresh temporal state. -/
def c2Blessing : Buff :=
  { id := "buff_001", name := "Blessing", effects := [],
    expiry_type := "chapter", expiry_value := some 3, description := "" }

/-- A pure temporal marker event: one of the two context-only types. -/
def isMarker (e : Event) : Prop :=
  e.type = "chapter_start" ∨ e.type = "word_count_delta"

/-- A bare chapter-start marker for the C2 witness. -/
def c2Chapter : Event := { type := "chapter_start" }

/-! ## Claim C1: is `reduce` a pure function of the event list? -/

/-- Configuration for the C1 experiment: one computed stat reading the
buffed `Attack` value; no formulas would also do, but this makes the
numeric consequence visible. -/
def c1Cfg : Cfg :=
  { fe := (register_formula FormulaEngine.empty "Power" (Expr.var "Attack")).1 }

/-- A permanent buff event granting `Attack +5`. -/
def c1BuffEvent : Event :=
  { type := "buff", action := "gain", name := some "Blessing",
    expiry_type := some "permanent", effects := [("Attack", NumStr.num 5)] }

/-- The blessing buff as stored by the temporal state, under a given id. -/
def c1Buff (bid : String) : Buff :=
  ⟨bid, "Blessing", [("Attack", 5)], "permanent", Option.none, ""⟩

/-- Temporal state left behind by the first replay. -/
def c1Ts1 : TemporalState := ⟨[c1Buff "buff_001"], 1⟩

/-- Temporal state left behind by the second replay: the stale buff is
still there and a duplicate has been minted. -/
def c1Ts2 : TemporalState := ⟨[c1Buff "buff_001", c1Buff "buff_002"], 2⟩

/-- The state computed by a replay of the one-buff log, parametrised by
the (replay-dependent!) computed `Power` value and buff id. -/
def c1State (power : ℚ) (bid : String) : LState :=
  { computed_stats := [("Power", power)], buffs := [bid] }

/-- Claim C1 (code bug): the state computed by `reduce` is NOT a function
of the event list alone.  Replaying the same one-buff log twice on the
same engine yields different states: the temporal state is never reset by
`reduce`, so the second replay mints a fresh buff id (`buff_002`) while
the stale `buff_001` still contributes its effects, doubling the computed
`Power` stat.  This contradicts the spec invariant (and the source's own
"state is computed, not stored" principle). -/
theorem c1_reduce_depends_on_hidden_temporal_state :
    reduce c1Cfg TemporalState.initial [c1BuffEvent] =
      .ok (c1Ts1, [c1BuffEvent], c1State 5 "buff_001") ∧
    reduce c1Cfg c1Ts1 [c1BuffEvent] =
      .ok (c1Ts2, [c1BuffEvent], c1State 10 "buff_002") ∧
    c1State 5 "buff_001" ≠ c1State 10 "buff_002" := by
  refine ⟨by with_unfolding_all rfl, by with_unfolding_all rfl, ?_⟩
  intro h
  exact absurd (congrArg LState.buffs h) (by decide)

/-! ## Claim C6: circular-dependency rollback -/

/-- Claim C6 counterexample: registering `B = A / 2` after `A = B * 2`
does fail with the circular-dependency error naming the cycle path, but
`A` is still registered afterwards — the tables are NOT as if neither
`register_formula` call had happened. -/
theorem c6_first_formula_survives :
    c6AfterB.2 = some "Circular dependency detected: B → A → B" ∧
    AList.get c6AfterB.1.formulas "A" = some c6ExprA ∧
    c6AfterB.1.formulas ≠ [] := by
  decide

/-- Claim C6 (corrected): the cyclic registration fails with the
circular-dependency error naming the cycle path, and the SECOND
registration is fully rolled back — the formula, dirty-flag, and
dependency tables are exactly as they were after registering `A`, which
itself remains registered. -/
theorem c6_second_registration_rolled_back :
    c6AfterA.2 = Option.none ∧
    c6AfterA.1.formulas = [("A", c6ExprA)] ∧
    c6AfterA.1.dirty_flags = [("A", true)] ∧
    c6AfterA.1.dependencies = [("A", ["B"])] ∧
    c6AfterB.2 = some "Circular dependency detected: B → A → B" ∧
    c6AfterB.1 = c6AfterA.1 := by
  decide

/-! ## Claim C8: division by zero in formula evaluation -/

/-- Claim C8 (confirmed): evaluating `x / y` or `x // y` with `y` bound to
0 fails with an error distinguishable as division by zero (the dedicated
`divisionByZero` marker, never a generic failure and never a result), and
for every non-zero `y` the exact decimal quotient is returned. -/
theorem c8_division_by_zero (vx vy : ℚ) (hy : vy ≠ 0) :
    recalculate c8Div "Q" [("x", vx), ("y", 0)] =
      .error (.evalFailed "Q" .divisionByZero) ∧
    recalculate c8FloorDiv "R" [("x", vx), ("y", 0)] =
      .error (.evalFailed "R" .divisionByZero) ∧
    recalculate c8Div "Q" [("x", vx), ("y", vy)] = .ok (vx / vy) ∧
    recalculate c8FloorDiv "R" [("x", vx), ("y", vy)] = .ok (vx / vy) := by
  have hD : c8Div =
      ⟨[("Q", Expr.div (Expr.var "x") (Expr.var "y"))], [("Q", true)],
       [("Q", ["x", "y"])]⟩ := by
    with_unfolding_all rfl
  have hF : c8FloorDiv =
      ⟨[("R", Expr.floordiv (Expr.var "x") (Expr.var "y"))], [("R", true)],
       [("R", ["x", "y"])]⟩ := by
    with_unfolding_all rfl
  refine ⟨?_, ?_, ?_, ?_⟩ <;>
    simp [hD, hF, recalculate, AList.get, evalExpr, List.find?, hy,
      extract_dependencies, collectVars, List.filter, Bind.bind, Except.bind,
      pure, Except.pure, throw, throwThe, MonadExcept.throw]

/-- Witness for C8 at `x = 1, y = 2`. -/
theorem c8_division_by_zero_witness :
    recalculate c8Div "Q" [("x", 1), ("y", 0)] =
      .error (.evalFailed "Q" .divisionByZero) ∧
    recalculate c8Div "Q" [("x", 1), ("y", 2)] = .ok (1 / 2) := by
  have h := c8_division_by_zero 1 2 (by norm_num)
  exact ⟨h.1, h.2.2.1⟩

/-! ## Claim C9: breakdown reconstruction — counterexample -/

/-- Claim C9 counterexample: on the valid schema `{B: 1, H: 0.5}` the
breakdown of the non-negative base value 1 books the full remainder under
the base unit AND then also 2 × H, so the reconstruction sum is 2, not 1
— `from_base` loses the no-information-loss guarantee as soon as a unit
rate below 1 exists, which `validate()` permits. -/
theorem c9_sub_base_unit_double_counts :
    schemaValid c9Weird "B" ∧
    from_base c9Weird "B" 1 = [("B", 1), ("H", 2)] ∧
    breakdownSum c9Weird (from_base c9Weird "B" 1) = 2 ∧
    breakdownSum c9Weird (from_base c9Weird "B" 1) ≠ 1 := by
  refine ⟨by with_unfolding_all decide, by with_unfolding_all rfl,
    by with_unfolding_all rfl, by with_unfolding_all decide⟩

/-! ## Claim C7: temporal markers — counterexample -/

/-- Claim C7 counterexample: replaying an event of TYPE
`word_count_delta` does not move the word-count counter at all — the
source accumulates `event["word_count_delta"]` keyed on the PRESENCE of a
dict key of that name, regardless of the event's type, and never reads
the event's `value`.  The replay context stays at word count 0 and the
observable computed stat `WC` is 0, not 500. -/
theorem c7_word_count_type_not_accumulated :
    reduceGo {} TemporalState.initial {} {} [c7Event] =
      .ok TemporalState.initial {} {} [c7Event] ∧
    reduce c7Cfg TemporalState.initial [c7Event] =
      .ok (TemporalState.initial, [c7Event],
           { computed_stats := [("WC", (0 : ℚ))] }) ∧
    (0 : ℚ) ≠ 500 := by
  refine ⟨by with_unfolding_all rfl, by with_unfolding_all rfl,
    by with_unfolding_all decide⟩

/-! ## Claim C3: rule application — counterexample -/

/-- Claim C3 counterexample: committing through `process_batch` stores the
event with its untransformed value 100 and an empty audit trail, although
the registered matching rule would have set the value to 7 (as
`apply_rules` — which only `add_event` invokes — shows).  So it is false
that every committed event has all matching rules applied exactly once. -/
theorem c3_process_batch_skips_rules :
    (process_batch c3Engine [c3Tx]).2.1 = true ∧
    (process_batch c3Engine [c3Tx]).1.events = [{ c3Tx with event_id := some 1 }] ∧
    (apply_rules c3Engine.rules { c3Tx with event_id := some 1 }).value =
      some (NumStr.num 7) := by
  refine ⟨by with_unfolding_all rfl, by with_unfolding_all rfl,
    by with_unfolding_all rfl⟩

/-! ## Claim C5: batch atomicity under security validation -/

/-- When some transaction in the list fails security validation,
`batchAssign` reports the failure (before anything is replayed). -/
theorem batchAssign_unsafe {txs : List Event}
    (h : ∃ tx ∈ txs, (validate_security_rules tx).1 = false) :
    ∀ ctr, ∃ ctr' m, batchAssign ctr txs = (ctr', Except.error m) := by
  induction txs with
  | nil => simp at h
  | cons t rest ih =>
    intro ctr
    by_cases hs : (validate_security_rules t).1 = true
    · have h' : ∃ tx ∈ rest, (validate_security_rules tx).1 = false := by
        rcases h with ⟨tx, hmem, hfalse⟩
        rcases List.mem_cons.mp hmem with heq | hm
        · rw [heq, hs] at hfalse; cases hfalse
        · exact ⟨tx, hm, hfalse⟩
      obtain ⟨ctr', m, heq⟩ := ih h' (ctr + 1)
      exact ⟨ctr', m, by simp [batchAssign, hs, heq]⟩
    · simp only [Bool.not_eq_true] at hs
      exact ⟨ctr, "⛔ Transaction Blocked: " ++ (validate_security_rules t).2,
        by simp [batchAssign, hs]⟩

/-- Claim C5 (confirmed): if any transaction of the batch fails a
security rule (blocked keyword, or a gain over its cap, including the
fixed 50-item cap), `process_batch` fails and commits nothing — the event
log is exactly unchanged, even when valid transactions precede the
blocked one. -/
theorem c5_security_block_is_atomic (eng : Engine) (txs : List Event)
    (h : ∃ tx ∈ txs, (validate_security_rules tx).1 = false) :
    (process_batch eng txs).2.1 = false ∧
    (process_batch eng txs).1.events = eng.events := by
  obtain ⟨ctr', m, heq⟩ := batchAssign_unsafe h eng.event_id_counter
  constructor <;> simp [process_batch, heq]

/-- Witness for C5: the spec's 3-valid-then-1-blocked batch commits zero
events. -/
theorem c5_security_block_is_atomic_witness :
    (validate_security_rules c5Bad).1 = false ∧
    (process_batch c5Engine [c5Good, c5Good, c5Good, c5Bad]).2.1 = false ∧
    (process_batch c5Engine [c5Good, c5Good, c5Good, c5Bad]).1.events =
      c5Engine.events := by
  have hb : (validate_security_rules c5Bad).1 = false := by with_unfolding_all rfl
  have h := c5_security_block_is_atomic c5Engine [c5Good, c5Good, c5Good, c5Bad]
    ⟨c5Bad, by simp, hb⟩
  exact ⟨hb, h.1, h.2⟩

/-! ## Replay-loop lemmas -/

set_option maxHeartbeats 1000000 in
/-- `_apply_event` annotates events but never touches their id, value,
audit trail, type or action. -/
theorem apply_event_preserves {cfg : Cfg} {ts : TemporalState} {st : LState}
    {e : Event} {ts2 : TemporalState} {st2 : LState} {e2 : Event}
    (h : apply_event cfg ts st e = .ok (ts2, st2, e2)) :
    e2.event_id = e.event_id ∧ e2.value = e.value ∧
    e2.applied_rules = e.applied_rules ∧ e2.type = e.type ∧
    e2.action = e.action := by
  unfold apply_event at h
  repeat' split at h
  all_goals first
    | exact Except.noConfusion h
    | (injection h with h1
       injection h1 with hts h2
       injection h2 with hst hev
       subst hev
       try unfold itemAnnotated
       (repeat' split) <;> simp)

/-- The replay loop preserves each event's id, value and audit trail. -/
theorem reduceGo_auditKey (cfg : Cfg) :
    ∀ (es : List Event) (ts : TemporalState) (ctx : Ctx) (st : LState)
      {ts' : TemporalState} {ctx' : Ctx} {st' : LState} {evts' : List Event},
      reduceGo cfg ts ctx st es = .ok ts' ctx' st' evts' →
      evts'.map auditKey = es.map auditKey := by
  intro es
  induction es with
  | nil => intro ts ctx st ts' ctx' st' evts' h; cases h; rfl
  | cons e rest ih =>
    intro ts ctx st ts' ctx' st' evts' h
    rw [reduceGo] at h
    split at h
    · exact ReduceRes.noConfusion h
    · rename_i ts2 st2 e2 happly
      split at h
      · rename_i tsr ctxr str evtsr hrec
        cases h
        have hfields := apply_event_preserves happly
        have htail := ih ts2 (updateCtx ctx e) st2 hrec
        simp [List.map_cons, htail, auditKey, hfields.1, hfields.2.1, hfields.2.2.1]
      · exact ReduceRes.noConfusion h

/-- Replaying a concatenation is replaying the first part and continuing
from its final temporal state, context and state. -/
theorem reduceGo_append (cfg : Cfg) :
    ∀ (es1 es2 : List Event) (ts : TemporalState) (ctx : Ctx) (st : LState),
      reduceGo cfg ts ctx st (es1 ++ es2) =
        match reduceGo cfg ts ctx st es1 with
        | .ok ts' ctx' st' evts' =>
          match reduceGo cfg ts' ctx' st' es2 with
          | .ok ts'' ctx'' st'' evts'' => .ok ts'' ctx'' st'' (evts' ++ evts'')
          | .err t m => .err t m
        | .err t m => .err t m := by
  intro es1
  induction es1 with
  | nil =>
    intro es2 ts ctx st
    rw [List.nil_append]
    rcases hr : reduceGo cfg ts ctx st es2 with ⟨t, c, s, v⟩ | ⟨t, m⟩ <;>
      simp [reduceGo, hr]
  | cons e es1 ih =>
    intro es2 ts ctx st
    rw [List.cons_append, reduceGo, reduceGo]
    rcases ha : apply_event cfg (expireStep ts (updateCtx ctx e) st).1
        (expireStep ts (updateCtx ctx e) st).2 e with m | ⟨ts2, st2, e2⟩
    · simp [ha]
    · simp only [ha]
      rw [ih es2 ts2 (updateCtx ctx e) st2]
      rcases hr1 : reduceGo cfg ts2 (updateCtx ctx e) st2 es1 with
        ⟨t1, c1, s1, v1⟩ | ⟨t1, m1⟩
      · rcases hr2 : reduceGo cfg t1 c1 s1 es2 with ⟨t2, c2, s2, v2⟩ | ⟨t2, m2⟩ <;>
          simp [hr1, hr2]
      · simp [hr1]

/-! ## Claim C7 (amended): temporal counters -/

/-- The replay context counters evolve exactly by chapter-start count and
by the sum of present `word_count_delta` fields. -/
theorem reduceGo_counters (cfg : Cfg) :
    ∀ (es : List Event) (ts : TemporalState) (ctx : Ctx) (st : LState)
      {ts' : TemporalState} {ctx' : Ctx} {st' : LState} {evts' : List Event},
      reduceGo cfg ts ctx st es = .ok ts' ctx' st' evts' →
      ctx'.chapter = ctx.chapter + chapterCount es ∧
      ctx'.word_count = ctx.word_count + wcdSum es := by
  intro es
  induction es with
  | nil =>
    intro ts ctx st ts' ctx' st' evts' h
    cases h
    simp [chapterCount, wcdSum]
  | cons e rest ih =>
    intro ts ctx st ts' ctx' st' evts' h
    rw [reduceGo] at h
    split at h
    · exact ReduceRes.noConfusion h
    · rename_i ts2 st2 e2 happly
      split at h
      · rename_i tsr ctxr str evtsr hrec
        cases h
        have hih := ih ts2 (updateCtx ctx e) st2 hrec
        constructor
        · rw [hih.1]
          by_cases hc : e.type = "chapter_start" <;>
            (simp [updateCtx, chapterCount, List.countP_cons, hc]; try omega)
        · rw [hih.2]
          cases hw : e.word_count_delta <;>
            (simp [updateCtx, wcdSum, hw, List.filterMap_cons]; try ring)
      · exact ReduceRes.noConfusion h

/-- Claim C7 (amended): `chapter_start` events increment the replay
chapter counter by exactly 1, and the word-count counter accumulates an
event's `word_count_delta` FIELD whenever present — regardless of the
event's type; an event whose type is `word_count_delta` without that key
contributes nothing (see the counterexample).  Both updates happen before
buff expiry is checked (`reduceGo` checks expiry against `updateCtx ctx
e`), and marker events themselves leave temporal state, derived state and
event untouched. -/
theorem c7_markers_update_context_only (cfg : Cfg) :
    (∀ (es : List Event) (ts : TemporalState) (ctx : Ctx) (st : LState)
       (ts' : TemporalState) (ctx' : Ctx) (st' : LState) (evts' : List Event),
       reduceGo cfg ts ctx st es = .ok ts' ctx' st' evts' →
       ctx'.chapter = ctx.chapter + chapterCount es ∧
       ctx'.word_count = ctx.word_count + wcdSum es) ∧
    (∀ (ts : TemporalState) (st : LState) (e : Event),
       e.type = "chapter_start" ∨ e.type = "word_count_delta" →
       apply_event cfg ts st e = .ok (ts, st, e)) := by
  constructor
  · intro es ts ctx st ts' ctx' st' evts' h
    exact reduceGo_counters cfg es ts ctx st h
  · intro ts st e h
    rcases h with h | h <;> simp [apply_event, h]

/-- Witness for the amended C7 at a concrete one-event replay. -/
theorem c7_markers_update_context_only_witness :
    ({ chapter := 1, word_count := 0, timestamp := Option.none } : Ctx).chapter =
      ({} : Ctx).chapter + chapterCount [c7ChapterEvent] ∧
    apply_event {} TemporalState.initial {} c7ChapterEvent =
      .ok (TemporalState.initial, {}, c7ChapterEvent) := by
  have hrun : reduceGo {} TemporalState.initial {} {} [c7ChapterEvent] =
      .ok TemporalState.initial
        { chapter := 1, word_count := 0, timestamp := Option.none } {}
        [c7ChapterEvent] := by
    with_unfolding_all rfl
  exact ⟨((c7_markers_update_context_only {}).1 [c7ChapterEvent]
            TemporalState.initial {} {} _ _ _ _ hrun).1,
         (c7_markers_update_context_only {}).2 TemporalState.initial {}
            c7ChapterEvent (Or.inl rfl)⟩

/-- A successful `reduce` is a successful replay loop followed by the
stat assembly, which changes only `computed_stats` and `alerts`. -/
theorem reduce_ok_elim {cfg : Cfg} {ts : TemporalState} {es : List Event}
    {tsF : TemporalState} {evtsF : List Event} {stF : LState}
    (h : reduce cfg ts es = .ok (tsF, evtsF, stF)) :
    ∃ ctx' st', reduceGo cfg ts {} {} es = .ok tsF ctx' st' evtsF ∧
      stF.gold_cp = st'.gold_cp ∧ stF.inventory = st'.inventory ∧
      stF.stats = st'.stats ∧ stF.buffs = st'.buffs := by
  unfold reduce at h
  split at h
  · exact Except.noConfusion h
  · rename_i ts0 ctx0 st0 evts0 hgo
    split at h
    · exact Except.noConfusion h
    · rename_i computed hcomp
      injection h with h1
      injection h1 with hts h2
      injection h2 with hevts hst
      subst hts hevts
      exact ⟨ctx0, st0, hgo, by rw [← hst]; rfl, by rw [← hst]; rfl,
        by rw [← hst]; rfl, by rw [← hst]; rfl⟩

/-! ## Claim C3 (amended): rule application happens once, in `add_event` only -/

theorem ruleKey_eq_snd_auditKey (l : List Event) :
    l.map ruleKey = (l.map auditKey).map Prod.snd := by
  simp [ruleKey, auditKey, List.map_map]

/-- When `batchAssign` accepts a batch it only assigns ids: values and
audit trails are untouched, ids are the consecutive block after the
incoming counter, and the counter advances by the batch length. -/
theorem batchAssign_ok :
    ∀ (txs : List Event) (ctr : ℕ) {ctr' : ℕ} {evs : List Event},
      batchAssign ctr txs = (ctr', .ok evs) →
      evs.map ruleKey = txs.map ruleKey ∧
      evs.map Event.event_id = (List.range' (ctr + 1) txs.length).map some ∧
      ctr' = ctr + txs.length := by
  intro txs
  induction txs with
  | nil =>
    intro ctr ctr' evs h
    rw [batchAssign] at h
    injection h with h1 h2
    injection h2 with h3
    subst h1 h3
    simp
  | cons t rest ih =>
    intro ctr ctr' evs h
    rw [batchAssign] at h
    split at h
    · exact absurd (congrArg Prod.snd h) (by simp)
    · split at h
      · rename_i ctr2 evs2 hrec
        injection h with h1 h2
        injection h2 with h3
        subst h1 h3
        have hih := ih (ctr + 1) hrec
        refine ⟨?_, ?_, ?_⟩
        · simp [ruleKey, hih.1]
        · simp [hih.2.1, List.range']
        · rw [hih.2.2]; simp; omega
      · rename_i ctr2 m hrec
        injection h with h1 h2
        exact Except.noConfusion h2

/-- Claim C3 (amended): an event committed through `add_event` carries
exactly the value and audit trail produced by ONE pass of the rule engine
over the id-assigned candidate, applied before the append (replay, which
runs between the transformation and the append, changes neither).  An
event committed through `process_batch` is appended with its raw value
and audit trail — the batch path performs no rule transformation at
all. -/
theorem c3_rules_applied_once_only_in_add_event (eng : Engine) (ev : Event)
    (txs : List Event) :
    (∀ eng' msg, add_event eng ev = (eng', true, msg) →
       eng'.events.map ruleKey =
         eng.events.map ruleKey ++ [ruleKey (preparedEvent eng ev)]) ∧
    (∀ eng' logs, process_batch eng txs = (eng', true, logs) →
       eng'.events.map ruleKey = eng.events.map ruleKey ++ txs.map ruleKey) := by
  constructor
  · intro eng' msg h
    unfold add_event at h
    split at h
    · injection h with h1 h2
      injection h2 with h3 h4
      exact Bool.noConfusion h3
    · rename_i ts' evts' stF hred
      repeat' split at h
      all_goals
        try (injection h with h1 h2; injection h2 with h3 h4; exact Bool.noConfusion h3)
      injection h with h1 h2
      rw [← h1]
      obtain ⟨ctx', st', hgo, _⟩ := reduce_ok_elim hred
      have hmap := reduceGo_auditKey eng.cfg _ eng.temporal {} {} hgo
      show evts'.map ruleKey = _
      rw [ruleKey_eq_snd_auditKey, hmap, ← ruleKey_eq_snd_auditKey, List.map_append]
      rfl
  · intro eng' logs h
    unfold process_batch at h
    split at h
    · injection h with h1 h2
      injection h2 with h3 h4
      exact Bool.noConfusion h3
    · rename_i ctr' evs hba
      split at h
      · injection h with h1 h2
        injection h2 with h3 h4
        exact Bool.noConfusion h3
      · rename_i ts' evts' stF hred
        repeat' split at h
        all_goals
          try (injection h with h1 h2; injection h2 with h3 h4; exact Bool.noConfusion h3)
        injection h with h1 h2
        rw [← h1]
        obtain ⟨ctx', st', hgo, _⟩ := reduce_ok_elim hred
        have hmap := reduceGo_auditKey eng.cfg _ eng.temporal {} {} hgo
        have hbat := batchAssign_ok txs eng.event_id_counter hba
        show evts'.map ruleKey = _
        rw [ruleKey_eq_snd_auditKey, hmap, ← ruleKey_eq_snd_auditKey,
          List.map_append, hbat.1]

/-- Witness for the amended C3 at concrete commits: an `add_event` commit
on the rule-bearing engine (value transformed once, to 7) and a
`process_batch` commit (value untouched). -/
theorem c3_rules_applied_once_only_in_add_event_witness :
    (add_event c3Engine c3Tx).1.events.map ruleKey =
      c3Engine.events.map ruleKey ++ [ruleKey (preparedEvent c3Engine c3Tx)] ∧
    (process_batch c3Engine [c3Tx]).1.events.map ruleKey =
      c3Engine.events.map ruleKey ++ [c3Tx].map ruleKey ∧
    ruleKey (preparedEvent c3Engine c3Tx) =
      (some (NumStr.num 7), [⟨"rule_001", "inflation", 100, 7⟩]) ∧
    ruleKey c3Tx = (some (NumStr.num 100), []) := by
  have hadd : add_event c3Engine c3Tx =
      ((add_event c3Engine c3Tx).1, true, "Success") := by
    with_unfolding_all rfl
  have hbatch : process_batch c3Engine [c3Tx] =
      ((process_batch c3Engine [c3Tx]).1, true,
       (process_batch c3Engine [c3Tx]).2.2) := by
    with_unfolding_all rfl
  refine ⟨(c3_rules_applied_once_only_in_add_event c3Engine c3Tx [c3Tx]).1 _ _ hadd,
          (c3_rules_applied_once_only_in_add_event c3Engine c3Tx [c3Tx]).2 _ _ hbatch,
          by with_unfolding_all rfl, by with_unfolding_all rfl⟩

/-! ## Claim C10: rejection leaves the log alone but not the id counter -/

/-- When `batchAssign` blocks a batch, the counter keeps exactly the
increments made for the safe prefix before the first blocked
transaction. -/
theorem batchAssign_error :
    ∀ (txs : List Event) (ctr : ℕ) {ctr' : ℕ} {m : String},
      batchAssign ctr txs = (ctr', .error m) →
      ctr' = ctr + (txs.takeWhile (fun t => (validate_security_rules t).1)).length := by
  intro txs
  induction txs with
  | nil =>
    intro ctr ctr' m h
    rw [batchAssign] at h
    injection h with h1 h2
    exact absurd h2 (by simp)
  | cons t rest ih =>
    intro ctr ctr' m h
    rw [batchAssign] at h
    split at h
    · rename_i hunsafe
      injection h with h1 h2
      rw [← h1]
      simp only [Bool.not_eq_true] at hunsafe
      simp [List.takeWhile_cons, hunsafe]
    · rename_i hsafe
      simp only [Bool.not_eq_true, Bool.not_eq_false] at hsafe
      split at h
      · rename_i ctr2 evs2 hrec
        injection h with h1 h2
        exact absurd h2 (by simp)
      · rename_i ctr2 m2 hrec
        injection h with h1 h2
        rw [← h1, ih (ctr + 1) hrec]
        simp [List.takeWhile_cons, hsafe]
        omega

/-- When `batchAssign` accepts a batch, every transaction was safe. -/
theorem batchAssign_ok_all_safe :
    ∀ (txs : List Event) (ctr : ℕ) {ctr' : ℕ} {evs : List Event},
      batchAssign ctr txs = (ctr', .ok evs) →
      txs.takeWhile (fun t => (validate_security_rules t).1) = txs := by
  intro txs
  induction txs with
  | nil => intro ctr ctr' evs h; rfl
  | cons t rest ih =>
    intro ctr ctr' evs h
    rw [batchAssign] at h
    split at h
    · injection h with h1 h2
      exact absurd h2 (by simp)
    · rename_i hsafe
      simp only [Bool.not_eq_true, Bool.not_eq_false] at hsafe
      split at h
      · rename_i ctr2 evs2 hrec
        simp [List.takeWhile_cons, hsafe, ih (ctr + 1) hrec]
      · injection h with h1 h2
        exact Except.noConfusion h2

theorem eventId_eq_fst_auditKey (l : List Event) :
    l.map Event.event_id = (l.map auditKey).map Prod.fst := by
  simp [auditKey, List.map_map]

/-- A successful replay of `es ++ more` on a log whose replay is stable
produces that same stable prefix followed by the processed tail. -/
theorem reduce_append_stable {cfg : Cfg} {ts : TemporalState} {es more : List Event}
    {ts1 : TemporalState} {st : LState}
    (hstable : reduce cfg ts es = .ok (ts1, es, st)) :
    ∀ {tsF : TemporalState} {evtsF : List Event} {stF : LState},
      reduce cfg ts (es ++ more) = .ok (tsF, evtsF, stF) →
      ∃ v2, evtsF = es ++ v2 := by
  intro tsF evtsF stF h
  obtain ⟨ctx1, st1, hgo1, _⟩ := reduce_ok_elim hstable
  obtain ⟨ctx', st', hgo, _⟩ := reduce_ok_elim h
  rw [reduceGo_append cfg es more ts {} {}] at hgo
  rw [hgo1] at hgo
  rcases hrec : reduceGo cfg ts1 ctx1 st1 more with ⟨t2, c2, s2, v2⟩ | ⟨t2, m2⟩ <;>
    simp only [hrec] at hgo
  · injection hgo with hts hctx hst hevts
    exact ⟨v2, hevts.symm⟩
  · exact ReduceRes.noConfusion hgo

/-- Claim C10 (confirmed): a rejected submission leaves the committed log
exactly unchanged, but the id counter keeps the increments already made —
`add_event` always advances it by one, `process_batch` by the length of
the safe prefix actually processed (the whole batch when the rejection
came from replay validation rather than security).  Committed batches
receive the consecutive id block above the old counter, so ids stay
strictly increasing across commits but need not be contiguous after a
rejection. -/
theorem c10_rejection_keeps_counter (eng : Engine) (ev : Event) (txs : List Event)
    {ts1 : TemporalState} {st : LState}
    (hstable : reduce eng.cfg eng.temporal eng.events = .ok (ts1, eng.events, st)) :
    (∀ eng' ok msg, add_event eng ev = (eng', ok, msg) →
       eng'.event_id_counter = eng.event_id_counter + 1 ∧
       (ok = false → eng'.events = eng.events)) ∧
    (∀ eng' ok logs, process_batch eng txs = (eng', ok, logs) →
       (ok = false →
          eng'.events = eng.events ∧
          eng'.event_id_counter = eng.event_id_counter +
            (txs.takeWhile (fun t => (validate_security_rules t).1)).length) ∧
       (ok = true →
          eng'.events.map Event.event_id =
            eng.events.map Event.event_id ++
              (List.range' (eng.event_id_counter + 1) txs.length).map some)) := by
  constructor
  · intro eng' ok msg h
    unfold add_event at h
    split at h
    · injection h with h1 h2
      injection h2 with h3 h4
      exact ⟨by rw [← h1], fun _ => by rw [← h1]⟩
    · rename_i ts' evts' stF hred
      obtain ⟨v2, hv2⟩ := reduce_append_stable hstable hred
      repeat' split at h
      all_goals injection h with h1 h2
      all_goals injection h2 with h3 h4
      all_goals refine ⟨by rw [← h1], fun hf => ?_⟩
      all_goals rw [← h1]
      all_goals try (rw [hv2]; exact List.take_left eng.events v2)
      rw [← h3] at hf
      exact Bool.noConfusion hf
  · intro eng' ok logs h
    unfold process_batch at h
    split at h
    · rename_i ctr' m hba
      injection h with h1 h2
      injection h2 with h3 h4
      refine ⟨fun _ => ⟨by rw [← h1], ?_⟩, fun ht => ?_⟩
      · rw [← h1]
        exact batchAssign_error txs eng.event_id_counter hba
      · rw [← h3] at ht
        exact Bool.noConfusion ht
    · rename_i ctr' evs hba
      have hok := batchAssign_ok txs eng.event_id_counter hba
      have hsafe := batchAssign_ok_all_safe txs eng.event_id_counter hba
      split at h
      · injection h with h1 h2
        injection h2 with h3 h4
        refine ⟨fun _ => ⟨by rw [← h1], ?_⟩, fun ht => ?_⟩
        · rw [← h1]
          show ctr' = _
          rw [hok.2.2, hsafe]
        · rw [← h3] at ht
          exact Bool.noConfusion ht
      · rename_i ts' evts' stF hred
        obtain ⟨v2, hv2⟩ := reduce_append_stable hstable hred
        obtain ⟨ctx', st', hgo, _⟩ := reduce_ok_elim hred
        have hmap := reduceGo_auditKey eng.cfg _ eng.temporal {} {} hgo
        repeat' split at h
        all_goals injection h with h1 h2
        all_goals injection h2 with h3 h4
        · refine ⟨fun _ => ⟨?_, ?_⟩, fun ht => ?_⟩
          · rw [← h1, hv2]
            exact List.take_left eng.events v2
          · rw [← h1]
            show ctr' = _
            rw [hok.2.2, hsafe]
          · rw [← h3] at ht
            exact Bool.noConfusion ht
        · refine ⟨fun _ => ⟨?_, ?_⟩, fun ht => ?_⟩
          · rw [← h1, hv2]
            exact List.take_left eng.events v2
          · rw [← h1]
            show ctr' = _
            rw [hok.2.2, hsafe]
          · rw [← h3] at ht
            exact Bool.noConfusion ht
        · refine ⟨fun hf => ?_, fun _ => ?_⟩
          · rw [← h3] at hf
            exact Bool.noConfusion hf
          · rw [← h1]
            show evts'.map Event.event_id = _
            rw [eventId_eq_fst_auditKey, hmap, ← eventId_eq_fst_auditKey,
              List.map_append, hok.2.1]

/-- Witness for C10: the rejected spend leaves the log empty but advances
the counter to 1; a subsequent committed gain receives id 2, so the
committed log's ids skip 1 (strictly increasing, not contiguous). -/
theorem c10_rejection_keeps_counter_witness :
    (add_event c10Engine c10Lose).1.event_id_counter =
      c10Engine.event_id_counter + 1 ∧
    (add_event c10Engine c10Lose).1.events = c10Engine.events ∧
    (process_batch c10Engine [c10Gain]).1.events.map Event.event_id =
      c10Engine.events.map Event.event_id ++
        (List.range' (c10Engine.event_id_counter + 1) 1).map some ∧
    (add_event (add_event c10Engine c10Lose).1 c10Gain).1.events.map
        Event.event_id = [some 2] := by
  have hstable : reduce c10Engine.cfg c10Engine.temporal c10Engine.events =
      .ok (TemporalState.initial, [], {}) := by
    with_unfolding_all rfl
  have h := c10_rejection_keeps_counter c10Engine c10Lose [c10Gain] hstable
  have h1 := h.1 (add_event c10Engine c10Lose).1 (add_event c10Engine c10Lose).2.1
    (add_event c10Engine c10Lose).2.2 rfl
  have hf : (add_event c10Engine c10Lose).2.1 = false := by with_unfolding_all rfl
  have h2 := h.2 (process_batch c10Engine [c10Gain]).1
    (process_batch c10Engine [c10Gain]).2.1
    (process_batch c10Engine [c10Gain]).2.2 rfl
  have ht : (process_batch c10Engine [c10Gain]).2.1 = true := by
    with_unfolding_all rfl
  exact ⟨h1.1, h1.2 hf, (h2.2) ht, by with_unfolding_all rfl⟩

/-! ## Claim C4: gold underflow — strict rejection vs draft flagging -/

/-- With no rules registered, `apply_rules` is the identity. -/
theorem apply_rules_nil (e : Event) : apply_rules [] e = e := rfl

/-- With no formulas registered, the computed-stats pass returns the
empty table. -/
theorem get_all_computed_stats_nil {fe : FormulaEngine} (h : fe.formulas = [])
    (ctx : List (String × ℚ)) : get_all_computed_stats fe ctx = .ok [] := by
  unfold get_all_computed_stats
  rw [h]
  rfl

/-- How `_apply_event` treats an underflowing gold spend, as a function
of the strict flag. -/
theorem apply_event_gold_underflow (cfg : Cfg) (e : Event)
    (htype : e.type = "gold") (hact : e.action = "lose")
    (hind : (e.value.getD (NumStr.num 0)).isIndeterminate = false)
    (tsx : TemporalState) (stx : LState)
    (hu : stx.gold_cp < goldAmount cfg e) :
    (cfg.strict_mode = true →
       apply_event cfg tsx stx e = .error "Insufficient gold") ∧
    (cfg.strict_mode = false →
       apply_event cfg tsx stx e =
         .ok (tsx, { stx with gold_cp := stx.gold_cp - goldAmount cfg e },
              { e with is_implicit := true,
                       logs := e.logs ++
                         ["Warning: Gold underflow allowed in Draft Mode"] })) := by
  constructor <;> intro hs <;>
    simp [apply_event, htype, hact, hind, hu, hs]

/-- Claim C4 (confirmed): for a gold spend whose converted amount exceeds
the current balance (on an engine with no rules, no formulas, and a
replay-stable committed log): in strict mode `add_event` rejects the
event with the insufficient-gold validation failure and the event log is
unchanged — the id counter still advances and the engine keeps the
temporal state at which the tentative replay raised, since the source
never restores `self.temporal_state`; in draft mode the same event
commits, flagged `is_implicit` with the warning appended to its logs,
and the resulting gold balance is the old balance minus the converted
amount — negative. -/
theorem c4_gold_underflow (eng : Engine) (ev : Event)
    {ts1 : TemporalState} {st : LState}
    (hrules : eng.rules = [])
    (hfe : eng.cfg.fe.formulas = [])
    (htype : ev.type = "gold")
    (hact : ev.action = "lose")
    (hind : (ev.value.getD (NumStr.num 0)).isIndeterminate = false)
    (hstable : reduce eng.cfg eng.temporal eng.events = .ok (ts1, eng.events, st))
    (hunder : st.gold_cp < goldAmount eng.cfg ev) :
    (eng.cfg.strict_mode = true →
       ∃ ts2,
         add_event eng ev =
           ({ eng with event_id_counter := eng.event_id_counter + 1,
                       temporal := ts2 }, false,
            "事件校验失败: Insufficient gold") ∧
         reduce eng.cfg eng.temporal (eng.events ++ [preparedEvent eng ev]) =
           .error (ts2, "Insufficient gold")) ∧
    (eng.cfg.strict_mode = false →
       ∃ ts2 stF,
         add_event eng ev =
           ({ eng with events := eng.events ++ [c4Flagged eng ev],
                       event_id_counter := eng.event_id_counter + 1,
                       temporal := ts2 }, true, "Success") ∧
         reduce eng.cfg eng.temporal (eng.events ++ [preparedEvent eng ev]) =
           .ok (ts2, eng.events ++ [c4Flagged eng ev], stF) ∧
         stF.gold_cp = st.gold_cp - goldAmount eng.cfg ev ∧
         stF.gold_cp < 0) := by
  have hprep : preparedEvent eng ev =
      { ev with event_id := some (eng.event_id_counter + 1) } := by
    unfold preparedEvent
    rw [hrules, apply_rules_nil]
  obtain ⟨ctx1, st1, hgo1, hgold1, _, _, _⟩ := reduce_ok_elim hstable
  have hevgold : goldAmount eng.cfg
      { ev with event_id := some (eng.event_id_counter + 1) } =
      goldAmount eng.cfg ev := rfl
  have hstx : ∀ u : Ctx,
      ((expireStep ts1 u st1).2).gold_cp = st.gold_cp := by
    intro u
    rw [hgold1]
    rfl
  have happ := apply_event_gold_underflow eng.cfg
    { ev with event_id := some (eng.event_id_counter + 1) }
    htype hact hind
  constructor
  · intro hs
    have happly := (happ
      (expireStep ts1
        (updateCtx ctx1 { ev with event_id := some (eng.event_id_counter + 1) }) st1).1
      (expireStep ts1
        (updateCtx ctx1 { ev with event_id := some (eng.event_id_counter + 1) }) st1).2
      (by rw [hstx, hevgold]; exact hunder)).1 hs
    have hgo_single :
        reduceGo eng.cfg ts1 ctx1 st1
          [{ ev with event_id := some (eng.event_id_counter + 1) }] =
        .err (expireStep ts1
          (updateCtx ctx1 { ev with event_id := some (eng.event_id_counter + 1) }) st1).1
          "Insufficient gold" := by
      rw [reduceGo]
      simp only [happly]
    have hred : reduce eng.cfg eng.temporal
        (eng.events ++ [preparedEvent eng ev]) =
        .error ((expireStep ts1
            (updateCtx ctx1 { ev with event_id := some (eng.event_id_counter + 1) })
            st1).1, "Insufficient gold") := by
      unfold reduce
      rw [hprep, reduceGo_append eng.cfg eng.events _ eng.temporal {} {}]
      simp only [hgo1, hgo_single]
    refine ⟨_, ?_, hred⟩
    unfold add_event
    simp only [hred]
    rfl
  · intro hs
    have happly := (happ
      (expireStep ts1
        (updateCtx ctx1 { ev with event_id := some (eng.event_id_counter + 1) }) st1).1
      (expireStep ts1
        (updateCtx ctx1 { ev with event_id := some (eng.event_id_counter + 1) }) st1).2
      (by rw [hstx, hevgold]; exact hunder)).2 hs
    have hflag : ({ { ev with event_id := some (eng.event_id_counter + 1) } with
        is_implicit := true,
        logs := ({ ev with event_id := some (eng.event_id_counter + 1) }).logs ++
          ["Warning: Gold underflow allowed in Draft Mode"] } : Event) =
        c4Flagged eng ev := rfl
    have hgo_single :
        reduceGo eng.cfg ts1 ctx1 st1
          [{ ev with event_id := some (eng.event_id_counter + 1) }] =
        .ok (expireStep ts1
              (updateCtx ctx1 { ev with event_id := some (eng.event_id_counter + 1) }) st1).1
            (updateCtx ctx1 { ev with event_id := some (eng.event_id_counter + 1) })
            { (expireStep ts1
                (updateCtx ctx1 { ev with event_id := some (eng.event_id_counter + 1) }) st1).2
              with gold_cp := ((expireStep ts1
                (updateCtx ctx1 { ev with event_id := some (eng.event_id_counter + 1) }) st1).2).gold_cp -
                  goldAmount eng.cfg { ev with event_id := some (eng.event_id_counter + 1) } }
            [c4Flagged eng ev] := by
      rw [reduceGo]
      simp only [happly, reduceGo]
      rfl
    have hred : reduce eng.cfg eng.temporal
        (eng.events ++ [preparedEvent eng ev]) =
        .ok ((expireStep ts1
              (updateCtx ctx1 { ev with event_id := some (eng.event_id_counter + 1) }) st1).1,
             eng.events ++ [c4Flagged eng ev],
             assembleState
               { (expireStep ts1
                   (updateCtx ctx1 { ev with event_id := some (eng.event_id_counter + 1) }) st1).2
                 with gold_cp := ((expireStep ts1
                   (updateCtx ctx1 { ev with event_id := some (eng.event_id_counter + 1) }) st1).2).gold_cp -
                     goldAmount eng.cfg { ev with event_id := some (eng.event_id_counter + 1) } }
               []) := by
      unfold reduce
      rw [hprep, reduceGo_append eng.cfg eng.events _ eng.temporal {} {}]
      simp only [hgo1, hgo_single, get_all_computed_stats_nil hfe]
    refine ⟨_, _, ?_, hred, ?_, ?_⟩
    · unfold add_event
      simp only [hred, hs]
      rfl
    · show _ - goldAmount eng.cfg { ev with event_id := some (eng.event_id_counter + 1) } =
        st.gold_cp - goldAmount eng.cfg ev
      rw [hevgold, hstx]
    · show ((expireStep ts1 _ st1).2).gold_cp -
        goldAmount eng.cfg { ev with event_id := some (eng.event_id_counter + 1) } < 0
      rw [hevgold, hstx]
      linarith

/-- Witness for C4: the concrete 5-CP overdraft, once on the strict
engine (rejected, log unchanged) and once on the fresh draft-mode engine
(committed with a negative balance). -/
theorem c4_gold_underflow_witness :
    (c4EngStrict.cfg.strict_mode = true ∧
     ∃ ts2,
       add_event c4EngStrict c4Ev =
         ({ c4EngStrict with
             event_id_counter := c4EngStrict.event_id_counter + 1,
             temporal := ts2 }, false,
          "事件校验失败: Insufficient gold") ∧
       reduce c4EngStrict.cfg c4EngStrict.temporal
           (c4EngStrict.events ++ [preparedEvent c4EngStrict c4Ev]) =
         .error (ts2, "Insufficient gold")) ∧
    (c4Eng.cfg.strict_mode = false ∧
     ∃ ts2 stF,
       add_event c4Eng c4Ev =
         ({ c4Eng with
             events := c4Eng.events ++ [c4Flagged c4Eng c4Ev],
             event_id_counter := c4Eng.event_id_counter + 1,
             temporal := ts2 }, true, "Success") ∧
       reduce c4Eng.cfg c4Eng.temporal
           (c4Eng.events ++ [preparedEvent c4Eng c4Ev]) =
         .ok (ts2, c4Eng.events ++ [c4Flagged c4Eng c4Ev], stF) ∧
       stF.gold_cp = ({} : LState).gold_cp - goldAmount c4Eng.cfg c4Ev ∧
       stF.gold_cp < 0) :=
  ⟨⟨rfl,
    (c4_gold_underflow c4EngStrict c4Ev rfl rfl rfl rfl
      (by with_unfolding_all rfl)
      (show reduce c4EngStrict.cfg c4EngStrict.temporal c4EngStrict.events =
          .ok (TemporalState.initial, c4EngStrict.events, ({} : LState)) from
        by with_unfolding_all rfl)
      (by with_unfolding_all decide)).1 rfl⟩,
   ⟨rfl,
    (c4_gold_underflow c4Eng c4Ev rfl rfl rfl rfl
      (by with_unfolding_all rfl)
      (show reduce c4Eng.cfg c4Eng.temporal c4Eng.events =
          .ok (TemporalState.initial, c4Eng.events, ({} : LState)) from
        by with_unfolding_all rfl)
      (by with_unfolding_all decide)).2 rfl⟩⟩

/-! ## Claim C2: the chapter-buff expiry boundary

The scenario of the claim: a buff with `expiry_type="chapter"` and
`expiry_value=3` is gained first, and the rest of the replayed log
consists of pure temporal markers (`chapter_start` / `word_count_delta`
events), so that the chapter counter of a prefix is exactly its number of
`chapter_start` events.  Quantifying over the marker tail covers every
event prefix of the claim at once. -/

/-- Marker events pass through `_apply_event` untouched. -/
theorem apply_event_marker (cfg : Cfg) {ts : TemporalState} {st : LState}
    {e : Event} (h : isMarker e) :
    apply_event cfg ts st e = .ok (ts, st, e) := by
  rcases h with h | h <;> simp [apply_event, h]

/-- With no active buffs the expiry step is the identity. -/
theorem expireStep_nil (n : ℕ) (ctx : Ctx) (st : LState) :
    expireStep ⟨[], n⟩ ctx st = (⟨[], n⟩, st) := by
  simp [expireStep, check_expiry]

/-- While the chapter counter is at most 2, the Blessing is not expired
and the expiry step changes nothing. -/
theorem expireStep_active (ctx : Ctx) (st : LState) (hc : ctx.chapter ≤ 2) :
    expireStep ⟨[c2Blessing], 1⟩ ctx st = (⟨[c2Blessing], 1⟩, st) := by
  have h3 : ¬ ((3 : ℚ) ≤ (ctx.chapter : ℚ)) := by
    rw [show ((3 : ℚ) = ((3 : ℕ) : ℚ)) from by norm_num, Nat.cast_le]
    omega
  have hb : buffExpired ctx.chapter ctx.word_count ctx.timestamp c2Blessing =
      false := by
    simp [buffExpired, c2Blessing, ge_iff_le, h3]
  simp [expireStep, check_expiry, hb]

/-- From chapter 3 on, the expiry step strips the Blessing from both the
temporal state and the state's buff-id list. -/
theorem expireStep_expired (ctx : Ctx) (st : LState) (hc : 3 ≤ ctx.chapter)
    (hst : st.buffs = ["buff_001"]) :
    expireStep ⟨[c2Blessing], 1⟩ ctx st = (⟨[], 1⟩, { st with buffs := [] }) := by
  have h3 : ((3 : ℚ) ≤ (ctx.chapter : ℚ)) := by
    rw [show ((3 : ℚ) = ((3 : ℕ) : ℚ)) from by norm_num, Nat.cast_le]
    omega
  have hb : buffExpired ctx.chapter ctx.word_count ctx.timestamp c2Blessing =
      true := by
    simp [buffExpired, c2Blessing, ge_iff_le, h3]
  simp [expireStep, check_expiry, hb, hst,
    show c2Blessing.id = "buff_001" from rfl]

/-- Once no buff is active, a marker-only suffix changes only the
context. -/
theorem c2ReduceGoGone (cfg : Cfg) :
    ∀ (ms : List Event) (n : ℕ) (ctx : Ctx) (st : LState),
      (∀ e ∈ ms, isMarker e) →
      ∃ ctx', reduceGo cfg ⟨[], n⟩ ctx st ms = .ok ⟨[], n⟩ ctx' st ms := by
  intro ms
  induction ms with
  | nil =>
    intro n ctx st _
    exact ⟨ctx, rfl⟩
  | cons e rest ih =>
    intro n ctx st hm
    obtain ⟨ctx', hrec⟩ := ih n (updateCtx ctx e) st
      (fun x hx => hm x (List.mem_cons_of_mem e hx))
    refine ⟨ctx', ?_⟩
    rw [reduceGo]
    simp only [expireStep_nil, apply_event_marker cfg
      (hm e (List.mem_cons_self e rest)), hrec]

/-- The marker phase while the Blessing is the sole active buff: it
survives exactly as long as the running chapter counter stays at most 2,
and is stripped from the first event at which the counter reaches 3. -/
theorem c2ReduceGoActive (cfg : Cfg) :
    ∀ (ms : List Event) (ctx : Ctx) (st : LState),
      (∀ e ∈ ms, isMarker e) →
      ctx.chapter ≤ 2 → st.buffs = ["buff_001"] →
      ∃ ctx' st',
        reduceGo cfg ⟨[c2Blessing], 1⟩ ctx st ms =
          .ok (if ctx.chapter + chapterCount ms ≤ 2 then ⟨[c2Blessing], 1⟩
               else ⟨[], 1⟩) ctx' st' ms ∧
        st'.buffs =
          (if ctx.chapter + chapterCount ms ≤ 2 then ["buff_001"] else []) := by
  intro ms
  induction ms with
  | nil =>
    intro ctx st _ hc hst
    have hcz : ctx.chapter + chapterCount ([] : List Event) ≤ 2 := by
      simpa [chapterCount] using hc
    refine ⟨ctx, st, ?_, ?_⟩
    · rw [reduceGo, if_pos hcz]
    · rw [if_pos hcz, hst]
  | cons e rest ih =>
    intro ctx st hm hc hst
    have hme : isMarker e := hm e (List.mem_cons_self e rest)
    have hmr : ∀ x ∈ rest, isMarker x :=
      fun x hx => hm x (List.mem_cons_of_mem e hx)
    have hch : (updateCtx ctx e).chapter =
        if e.type = "chapter_start" then ctx.chapter + 1 else ctx.chapter := rfl
    by_cases h2 : (updateCtx ctx e).chapter ≤ 2
    · obtain ⟨ctx', st', hrec, hst'⟩ := ih (updateCtx ctx e) st hmr h2 hst
      have hcnd : ((updateCtx ctx e).chapter + chapterCount rest ≤ 2) ↔
          (ctx.chapter + chapterCount (e :: rest) ≤ 2) := by
        rw [hch]
        by_cases hcs : e.type = "chapter_start" <;>
          (simp [hcs, chapterCount, List.countP_cons]; try omega)
      refine ⟨ctx', st', ?_, ?_⟩
      · rw [reduceGo]
        simp only [expireStep_active (updateCtx ctx e) st h2,
          apply_event_marker cfg hme, hrec]
        rw [if_congr hcnd rfl rfl]
      · rw [hst', if_congr hcnd rfl rfl]
    · have h3 : 3 ≤ (updateCtx ctx e).chapter := by omega
      have hfalse : ¬ (ctx.chapter + chapterCount (e :: rest) ≤ 2) := by
        by_cases hcs : e.type = "chapter_start"
        · rw [hch, if_pos hcs] at h2
          simp only [chapterCount, List.countP_cons, hcs, decide_True,
            if_true]
          omega
        · rw [hch, if_neg hcs] at h2
          omega
      obtain ⟨ctx', hrec⟩ := c2ReduceGoGone cfg rest 1 (updateCtx ctx e)
        { st with buffs := [] } hmr
      refine ⟨ctx', { st with buffs := [] }, ?_, ?_⟩
      · rw [reduceGo]
        simp only [expireStep_expired (updateCtx ctx e) st h3 hst,
          apply_event_marker cfg hme, hrec]
        rw [if_neg hfalse]
      · rw [if_neg hfalse]

/-- Claim C2 (confirmed): during replay, buff expiry is checked once per
event, against the already-updated temporal context and before the event
is applied (`reduceGo` composes `updateCtx`, then `expireStep`, then
`apply_event`).  Consequently, replaying the chapter-3 Blessing buff
followed by any prefix of temporal markers: the buff is active — both in
the temporal state and in the derived state's buff list — exactly while
the prefix's chapter counter is at most 2, and is absent starting exactly
at the first event at which the counter reaches 3, never one event early
or late. -/
theorem c2_chapter_buff_boundary (ms : List Event)
    (hm : ∀ e ∈ ms, isMarker e) :
    ∃ ts' evts' st',
      reduce {} TemporalState.initial (c2BuffEvent :: ms) =
        .ok (ts', evts', st') ∧
      ts'.active_buffs = (if chapterCount ms ≤ 2 then [c2Blessing] else []) ∧
      (("buff_001" ∈ st'.buffs) ↔ chapterCount ms ≤ 2) := by
  have happB : apply_event {} ⟨[], 0⟩ ({} : LState) c2BuffEvent =
      .ok (⟨[c2Blessing], 1⟩, { buffs := ["buff_001"] }, c2BuffEvent) := by
    with_unfolding_all rfl
  have hctx : updateCtx {} c2BuffEvent = ({} : Ctx) := by
    with_unfolding_all rfl
  obtain ⟨ctx', st', hrec, hstb⟩ := c2ReduceGoActive {} ms {}
    { buffs := ["buff_001"] } hm (by with_unfolding_all decide) rfl
  have hzero : ({} : Ctx).chapter + chapterCount ms = chapterCount ms := by
    show 0 + _ = _
    omega
  rw [hzero] at hrec hstb
  have hgo : reduceGo {} TemporalState.initial {} {} (c2BuffEvent :: ms) =
      .ok (if chapterCount ms ≤ 2 then ⟨[c2Blessing], 1⟩ else ⟨[], 1⟩)
        ctx' st' (c2BuffEvent :: ms) := by
    rw [reduceGo, show TemporalState.initial = (⟨[], 0⟩ : TemporalState) from rfl,
      hctx]
    simp only [expireStep_nil, happB, hrec]
  refine ⟨if chapterCount ms ≤ 2 then ⟨[c2Blessing], 1⟩ else ⟨[], 1⟩,
    c2BuffEvent :: ms, assembleState st' [], ?_, ?_, ?_⟩
  · unfold reduce
    simp only [hgo, get_all_computed_stats_nil
      (show ({} : Cfg).fe.formulas = [] from rfl)]
  · by_cases h : chapterCount ms ≤ 2 <;> simp [h]
  · have hbuffs : (assembleState st' []).buffs = st'.buffs := rfl
    rw [hbuffs, hstb]
    by_cases h : chapterCount ms ≤ 2 <;> simp [h]

/-- Witness for C2: the Blessing followed by three chapter starts — the
chapter counter reaches 3, so the buff must be gone. -/
theorem c2_chapter_buff_boundary_witness :
    (∀ e ∈ [c2Chapter, c2Chapter, c2Chapter], isMarker e) ∧
    (∃ ts' evts' st',
      reduce {} TemporalState.initial
          (c2BuffEvent :: [c2Chapter, c2Chapter, c2Chapter]) =
        .ok (ts', evts', st') ∧
      ts'.active_buffs =
        (if chapterCount [c2Chapter, c2Chapter, c2Chapter] ≤ 2 then [c2Blessing]
         else []) ∧
      (("buff_001" ∈ st'.buffs) ↔
        chapterCount [c2Chapter, c2Chapter, c2Chapter] ≤ 2)) :=
  have hm : ∀ e ∈ [c2Chapter, c2Chapter, c2Chapter], isMarker e := by
    intro e he
    simp only [List.mem_cons, List.not_mem_nil, or_false] at he
    rcases he with h | h | h <;> (rw [h]; exact Or.inl rfl)
  ⟨hm, c2_chapter_buff_boundary [c2Chapter, c2Chapter, c2Chapter] hm⟩

/-! ## Claim C9 (amended): exact reconstruction for all-rates-at-least-1
schemas

The general positive half of the amended claim: on a valid schema in
which no unit is smaller than the base unit, the no-target `from_base`
breakdown reconstructs the input exactly and books at most one non-base
unit per distinct conversion rate.  (The counterexample for rates below 1
is `c9_sub_base_unit_double_counts`.) -/

/-- A key lookup on a nodup-keyed association list returns the stored
pair's value. -/
theorem AList.get_of_mem_nodup {α : Type} :
    ∀ {l : List (String × α)} {p : String × α},
      (l.map Prod.fst).Nodup → p ∈ l → AList.get l p.1 = some p.2 := by
  intro l
  induction l with
  | nil =>
    intro p _ hp
    exact absurd hp (List.not_mem_nil p)
  | cons a t ih =>
    intro p hn hp
    rw [List.map_cons] at hn
    have hn' := List.nodup_cons.mp hn
    rcases List.mem_cons.mp hp with h | h
    · subst h
      simp [AList.get, List.find?]
    · have ha : ¬ (a.1 = p.1) := by
        intro he
        exact hn'.1 (he ▸ List.mem_map_of_mem Prod.fst h)
      have hstep : AList.get (a :: t) p.1 = AList.get t p.1 := by
        simp [AList.get, List.find?, ha]
      rw [hstep]
      exact ih hn'.2 h

/-- A successful lookup exhibits a member of the list. -/
theorem AList.get_mem {α : Type} {l : List (String × α)} {k : String} {v : α}
    (h : AList.get l k = some v) : (k, v) ∈ l := by
  unfold AList.get at h
  cases hf : l.find? (fun p => p.1 = k) with
  | none =>
    rw [hf] at h
    exact Option.noConfusion h
  | some p =>
    rw [hf] at h
    obtain ⟨a, b⟩ := p
    have hk := List.find?_some hf
    have hp := List.mem_of_find?_eq_some hf
    simp at hk h
    subst hk
    subst h
    exact hp

/-- A key present among the keys is found by lookup. -/
theorem AList.get_isSome_of_mem_keys {α : Type} {l : List (String × α)}
    {k : String} (h : k ∈ l.map Prod.fst) :
    (AList.get l k).isSome := by
  obtain ⟨q, hq, hqk⟩ := List.mem_map.mp h
  have hf : (l.find? (fun p => p.1 = k)).isSome :=
    List.find?_isSome.mpr ⟨q, hq, by simp [hqk]⟩
  obtain ⟨p, hp⟩ := Option.isSome_iff_exists.mp hf
  unfold AList.get
  rw [hp]
  rfl

/-- Stable descending insertion permutes. -/
theorem insertDescBy_perm {α : Type} (key : α → ℚ) (x : α) :
    ∀ l : List α, List.Perm (insertDescBy key x l) (x :: l) := by
  intro l
  induction l with
  | nil => exact List.Perm.refl _
  | cons y ys ih =>
    by_cases h : key x < key y
    · simp only [insertDescBy, if_pos h]
      exact (ih.cons y).trans (List.Perm.swap x y ys)
    · simp only [insertDescBy, if_neg h]
      exact List.Perm.refl _

/-- Stable descending sort permutes. -/
theorem sortDescBy_perm {α : Type} (key : α → ℚ) :
    ∀ l : List α, List.Perm (sortDescBy key l) l := by
  intro l
  induction l with
  | nil => exact List.Perm.refl _
  | cons y ys ih =>
    exact (insertDescBy_perm key y (sortDescBy key ys)).trans (ih.cons y)

/-- Stable descending insertion preserves descending order. -/
theorem insertDescBy_pairwise {α : Type} (key : α → ℚ) (x : α) :
    ∀ l : List α, List.Pairwise (fun a b => key b ≤ key a) l →
      List.Pairwise (fun a b => key b ≤ key a) (insertDescBy key x l) := by
  intro l
  induction l with
  | nil =>
    intro _
    simp [insertDescBy]
  | cons y ys ih =>
    intro h
    obtain ⟨hy, hys⟩ := List.pairwise_cons.mp h
    by_cases hxy : key x < key y
    · simp only [insertDescBy, if_pos hxy]
      refine List.pairwise_cons.mpr ⟨?_, ih hys⟩
      intro b hb
      have hb' : b ∈ x :: ys := (insertDescBy_perm key x ys).subset hb
      rcases List.mem_cons.mp hb' with h1 | h1
      · exact h1 ▸ le_of_lt hxy
      · exact hy b h1
    · simp only [insertDescBy, if_neg hxy]
      push_neg at hxy
      refine List.pairwise_cons.mpr ⟨?_, h⟩
      intro b hb
      rcases List.mem_cons.mp hb with h1 | h1
      · exact h1 ▸ hxy
      · exact le_trans (hy b h1) hxy

/-- Stable descending sort sorts (weakly) descending. -/
theorem sortDescBy_pairwise {α : Type} (key : α → ℚ) :
    ∀ l : List α,
      List.Pairwise (fun a b => key b ≤ key a) (sortDescBy key l) := by
  intro l
  induction l with
  | nil => simp [sortDescBy]
  | cons y ys ih => exact insertDescBy_pairwise key y (sortDescBy key ys) ih

/-- Once only rate-1 non-base units remain, the breakdown loop books
nothing further. -/
theorem breakdownGo_ones (baseUnit : String) :
    ∀ (l : List (String × ℚ)) (remaining : ℚ) (processed : List ℚ)
      (acc : List (String × ℚ)),
      (∀ p ∈ l, p.2 = 1 ∧ p.1 ≠ baseUnit) →
      breakdownGo baseUnit l remaining processed acc = (acc, remaining) := by
  intro l
  induction l with
  | nil =>
    intro remaining processed acc _
    rfl
  | cons hd rest ih =>
    intro remaining processed acc h
    obtain ⟨u, r⟩ := hd
    obtain ⟨hr1, hub⟩ := h (u, r) (List.mem_cons_self _ _)
    have hrest : ∀ p ∈ rest, p.2 = 1 ∧ p.1 ≠ baseUnit :=
      fun p hp => h p (List.mem_cons_of_mem _ hp)
    rw [breakdownGo]
    by_cases hc1 : r ∈ processed ∧ u ≠ baseUnit
    · rw [if_pos hc1]
      exact ih remaining processed acc hrest
    · rw [if_neg hc1, if_pos ⟨hr1, hub⟩]
      exact ih remaining processed acc hrest

/-- The loop invariant of `from_base`'s breakdown walk on a descending,
nodup-keyed, all-rates-at-least-1 unit list containing the rate-1 base
unit: the booked sum plus the running remainder is conserved, the base
unit ends up booked, and non-base bookings carry pairwise distinct
rates (given that the accumulator's non-base rates all sit in
`processed` and are distinct). -/
theorem breakdownGo_spec (conversions : List (String × ℚ)) (baseUnit : String) :
    ∀ (l : List (String × ℚ)) (remaining : ℚ) (processed : List ℚ)
      (acc : List (String × ℚ)),
      (∀ p ∈ l, AList.get conversions p.1 = some p.2) →
      (∀ p ∈ l, 1 ≤ p.2) →
      List.Pairwise (fun p q : String × ℚ => q.2 ≤ p.2) l →
      (l.map Prod.fst).Nodup →
      (baseUnit, (1 : ℚ)) ∈ l →
      0 ≤ remaining →
      (∀ q ∈ acc, q.1 ≠ baseUnit →
        (AList.get conversions q.1).getD 1 ∈ processed) →
      ((acc.filter (fun q => q.1 ≠ baseUnit)).map
        (fun q => (AList.get conversions q.1).getD 1)).Nodup →
      breakdownSum conversions
          (breakdownGo baseUnit l remaining processed acc).1 =
        breakdownSum conversions acc + remaining ∧
      baseUnit ∈
        ((breakdownGo baseUnit l remaining processed acc).1.map Prod.fst) ∧
      (((breakdownGo baseUnit l remaining processed acc).1.filter
          (fun q => q.1 ≠ baseUnit)).map
        (fun q => (AList.get conversions q.1).getD 1)).Nodup := by
  intro l
  induction l with
  | nil =>
    intro remaining processed acc _ _ _ _ hbase _ _ _
    exact absurd hbase (List.not_mem_nil _)
  | cons hd rest ih =>
    intro remaining processed acc hmem hge hdesc hnod hbase hrem hinv1 hinv2
    obtain ⟨u, r⟩ := hd
    rw [List.map_cons] at hnod
    have hmemhd : AList.get conversions u = some r :=
      hmem (u, r) (List.mem_cons_self _ _)
    have hgehd : (1 : ℚ) ≤ r := hge (u, r) (List.mem_cons_self _ _)
    have hmemr : ∀ p ∈ rest, AList.get conversions p.1 = some p.2 :=
      fun p hp => hmem p (List.mem_cons_of_mem _ hp)
    have hger : ∀ p ∈ rest, (1 : ℚ) ≤ p.2 :=
      fun p hp => hge p (List.mem_cons_of_mem _ hp)
    have hdesc' := List.pairwise_cons.mp hdesc
    have hnod' := List.nodup_cons.mp hnod
    by_cases hub : u = baseUnit
    · subst hub
      have hr1 : r = 1 := by
        rcases List.mem_cons.mp hbase with he | he
        · injection he with h1 h2
          exact h2.symm
        · exact absurd (List.mem_map_of_mem Prod.fst he) hnod'.1
      have hones : ∀ p ∈ rest, p.2 = 1 ∧ p.1 ≠ u := by
        intro p hp
        refine ⟨?_, ?_⟩
        · have h1 : p.2 ≤ r := hdesc'.1 p hp
          have h2 : (1 : ℚ) ≤ p.2 := hger p hp
          rw [hr1] at h1
          linarith
        · intro he
          have hm1 : p.1 ∈ rest.map Prod.fst := List.mem_map_of_mem Prod.fst hp
          rw [he] at hm1
          exact hnod'.1 hm1
      have hc1 : ¬ (r ∈ processed ∧ u ≠ u) := by simp
      have hc2 : ¬ (r = 1 ∧ u ≠ u) := by simp
      rw [breakdownGo, if_neg hc1, if_neg hc2, if_pos rfl,
        breakdownGo_ones u rest remaining (r :: processed)
          (acc ++ [(u, remaining)]) hones]
      refine ⟨?_, by simp, ?_⟩
      · simp [breakdownSum, List.map_append, List.sum_append, hmemhd, hr1]
      · simpa [List.filter_append] using hinv2
    · have hbase' : (baseUnit, (1 : ℚ)) ∈ rest := by
        rcases List.mem_cons.mp hbase with he | he
        · injection he with h1 h2
          exact absurd h1.symm hub
        · exact he
      rw [breakdownGo]
      by_cases hc1 : r ∈ processed ∧ u ≠ baseUnit
      · rw [if_pos hc1]
        exact ih remaining processed acc hmemr hger hdesc'.2 hnod'.2 hbase'
          hrem hinv1 hinv2
      · rw [if_neg hc1]
        by_cases hc2 : r = 1 ∧ u ≠ baseUnit
        · rw [if_pos hc2]
          exact ih remaining processed acc hmemr hger hdesc'.2 hnod'.2 hbase'
            hrem hinv1 hinv2
        · rw [if_neg hc2, if_neg hub]
          have hrnp : r ∉ processed := fun hin => hc1 ⟨hin, hub⟩
          by_cases hcount : decFloorDiv remaining r > 0
          · rw [if_pos hcount]
            have hrpos : (0 : ℚ) < r := by linarith
            have hfl : ((⌊remaining / r⌋ : ℤ) : ℚ) * r ≤ remaining := by
              have h1 : ((⌊remaining / r⌋ : ℤ) : ℚ) ≤ remaining / r :=
                Int.floor_le _
              have h2 := mul_le_mul_of_nonneg_right h1 (le_of_lt hrpos)
              rwa [div_mul_cancel₀ remaining (ne_of_gt hrpos)] at h2
            have hrem' : 0 ≤ remaining - decFloorDiv remaining r * r := by
              unfold decFloorDiv
              linarith
            have hinv1' : ∀ q ∈ acc ++ [(u, decFloorDiv remaining r)],
                q.1 ≠ baseUnit →
                (AList.get conversions q.1).getD 1 ∈ r :: processed := by
              intro q hq hqb
              rcases List.mem_append.mp hq with h1 | h1
              · exact List.mem_cons_of_mem _ (hinv1 q h1 hqb)
              · have : q = (u, decFloorDiv remaining r) := by simpa using h1
                rw [this]
                simp [hmemhd]
            have hinv2' : (((acc ++ [(u, decFloorDiv remaining r)]).filter
                (fun q => q.1 ≠ baseUnit)).map
                (fun q => (AList.get conversions q.1).getD 1)).Nodup := by
              rw [List.filter_append, List.map_append]
              have hfu : ((([(u, decFloorDiv remaining r)] :
                  List (String × ℚ)).filter
                  (fun q => q.1 ≠ baseUnit)).map
                  (fun q => (AList.get conversions q.1).getD 1)) = [r] := by
                simp [List.filter, hub, hmemhd]
              rw [hfu]
              rw [List.nodup_append]
              refine ⟨hinv2, List.nodup_singleton r, ?_⟩
              intro a ha har
              have har' : a = r := by simpa using har
              obtain ⟨q, hq, hqa⟩ := List.mem_map.mp ha
              have hqf := List.of_mem_filter hq
              have hqb : q.1 ≠ baseUnit := by simpa using hqf
              have := hinv1 q (List.mem_of_mem_filter hq) hqb
              rw [hqa, har'] at this
              exact hrnp this
            obtain ⟨hs, hb, hn⟩ := ih (remaining - decFloorDiv remaining r * r)
              (r :: processed) (acc ++ [(u, decFloorDiv remaining r)])
              hmemr hger hdesc'.2 hnod'.2 hbase' hrem' hinv1' hinv2'
            refine ⟨?_, hb, hn⟩
            rw [hs]
            simp [breakdownSum, List.map_append, List.sum_append, hmemhd]
            try ring
          · rw [if_neg hcount]
            exact ih remaining processed acc hmemr hger hdesc'.2 hnod'.2
              hbase' hrem hinv1 hinv2

/-- Claim C9 (amended, positive half): on a valid schema in which every
conversion rate is at least 1 (no unit is smaller than the base unit),
`from_base` with no target unit books the base unit, its breakdown's
reconstruction sum — quantity times the unit's conversion rate — equals
the non-negative input exactly, and at most one unit per distinct
conversion rate other than the base unit is booked. -/
theorem c9_from_base_reconstructs (conversions : List (String × ℚ))
    (baseUnit : String) (v : ℚ)
    (hvalid : schemaValid conversions baseUnit)
    (hge : ∀ p ∈ conversions, (1 : ℚ) ≤ p.2)
    (hv : 0 ≤ v) :
    breakdownSum conversions (from_base conversions baseUnit v) = v ∧
    baseUnit ∈ ((from_base conversions baseUnit v).map Prod.fst) ∧
    (((from_base conversions baseUnit v).filter
        (fun q => q.1 ≠ baseUnit)).map
      (fun q => (AList.get conversions q.1).getD 1)).Nodup := by
  obtain ⟨hbget, hpos, hnodC⟩ := hvalid
  have hperm : List.Perm (sortDesc conversions) conversions :=
    sortDescBy_perm Prod.snd conversions
  have hmem : ∀ p ∈ sortDesc conversions,
      AList.get conversions p.1 = some p.2 :=
    fun p hp => AList.get_of_mem_nodup hnodC (hperm.subset hp)
  have hge' : ∀ p ∈ sortDesc conversions, (1 : ℚ) ≤ p.2 :=
    fun p hp => hge p (hperm.subset hp)
  have hdesc := sortDescBy_pairwise (α := String × ℚ) Prod.snd conversions
  have hnodS : ((sortDesc conversions).map Prod.fst).Nodup :=
    ((hperm.map Prod.fst).nodup_iff).mpr hnodC
  have hbaseS : (baseUnit, (1 : ℚ)) ∈ sortDesc conversions :=
    hperm.mem_iff.mpr (AList.get_mem hbget)
  obtain ⟨hsum, hbmem, hnodR⟩ := breakdownGo_spec conversions baseUnit
    (sortDesc conversions) v [] [] hmem hge' hdesc hnodS hbaseS hv
    (by intro q hq; exact absurd hq (List.not_mem_nil q))
    (by simp)
  have hfb : from_base conversions baseUnit v =
      (breakdownGo baseUnit (sortDesc conversions) v [] []).1 := by
    have hsome := AList.get_isSome_of_mem_keys hbmem
    obtain ⟨w, hw⟩ := Option.isSome_iff_exists.mp hsome
    unfold from_base
    rw [show breakdownGo baseUnit (sortDesc conversions) v [] [] =
      ((breakdownGo baseUnit (sortDesc conversions) v [] []).1,
       (breakdownGo baseUnit (sortDesc conversions) v [] []).2) from rfl]
    simp [hw]
  rw [hfb]
  refine ⟨?_, hbmem, hnodR⟩
  rw [hsum]
  simp [breakdownSum]

/-- Witness for the amended C9: the classic-fantasy schema at 247 copper
(2 GP, 4 SP, 7 CP). -/
theorem c9_from_base_reconstructs_witness :
    (schemaValid classicFantasy "CP" ∧
     (∀ p ∈ classicFantasy, (1 : ℚ) ≤ p.2) ∧ (0 : ℚ) ≤ 247) ∧
    (breakdownSum classicFantasy (from_base classicFantasy "CP" 247) = 247 ∧
     "CP" ∈ ((from_base classicFantasy "CP" 247).map Prod.fst) ∧
     (((from_base classicFantasy "CP" 247).filter
         (fun q => q.1 ≠ "CP")).map
       (fun q => (AList.get classicFantasy q.1).getD 1)).Nodup) :=
  ⟨⟨by with_unfolding_all decide, by with_unfolding_all decide,
     by with_unfolding_all decide⟩,
   c9_from_base_reconstructs classicFantasy "CP" 247
     (by with_unfolding_all decide) (by with_unfolding_all decide)
     (by with_unfolding_all decide)⟩

end LitRPG
